import Mathlib

/-!
# go_bitcoin: transactions, UTXO scanning and the chain store

A shallow embedding of `transaction.go`, `blockChain.go`, `wallet.go` and
`wallets.go`.

Conventions of the embedding:

* a Go `[]byte` (and a `string` used as a map key) is a `List Nat` of byte values;
  `nil` and the empty slice are both `[]` (the code only ever takes `len` of them);
* `int64` indices are `Int`; a finite `float64` value is the rational it denotes
  (`IsFloat64`), comparisons are those of the rationals, and `+` and `-` on `float64`
  are the fields `addFloat64` and `subFloat64` of `Prims`, known only to be exact
  where the exact result is a `float64` value (`float64Prims` gives them as IEEE 754
  defines them); infinities and NaN are left aside;
* a call that does not return normally (`log.Panic`, a run-time panic such as an index
  out of range, or a walk that never ends) is `none`;
* a Go `map[string]T` is an association list in insertion order, read with the zero
  value as default; `range` over it visits the entries in the order `rangeOrder`
  picks, which may be any permutation;
* library functions (SHA-256, RIPEMD-160, gob, ECDSA, Base58) and the parts of the
  package kept in other files (`NewBlock`) are fields of `Prims`; the block iterator
  and Base58 with the Bitcoin alphabet are also written out, from their description.
-/

namespace GoBitcoin

abbrev Bytes := List Nat

/-! ## Data model (`transaction.go`) -/

structure TXInput where
  Txid : Bytes
  Index : Int
  Signature : Bytes
  PubKey : Bytes
deriving DecidableEq, Repr

structure TXOutput where
  Value : ℚ
  PubKeyHash : Bytes
deriving DecidableEq, Repr

structure Transaction where
  TXID : Bytes
  TXInputs : List TXInput
  TXOutputs : List TXOutput
deriving DecidableEq, Repr

/-- Block header and body; the fields are the ones `blockChain.go` reads. -/
structure Block where
  Version : Nat
  PrevHash : Bytes
  MerkelRoot : Bytes
  TimeStamp : Nat
  Difficulty : Nat
  Nonce : Nat
  Hash : Bytes
  Transactions : List Transaction
deriving DecidableEq, Repr

/-- A finite `float64` value: an integer of magnitude below `2^53` times a power of
two with exponent from -1074 to 971. -/
def IsFloat64 (q : ℚ) : Prop :=
  ∃ m e : ℤ, |m| < 2 ^ 53 ∧ -1074 ≤ e ∧ e ≤ 971 ∧ q = m * (2 : ℚ) ^ e

/-- Library functions, language primitives and out-of-file collaborators the package
calls. -/
structure Prims where
  /-- `sha256.Sum256`. -/
  sha256 : Bytes → Bytes
  /-- `ripemd160.New().Write(..).Sum(nil)`. -/
  ripemd160 : Bytes → Bytes
  /-- The bytes `gob.NewEncoder(..).Encode(tx)` writes. -/
  gobEncode : Transaction → Bytes
  /-- `ecdsa.Sign(rand.Reader, priv, digest)`: private scalar, the randomness drawn,
  digest; `none` when it reports an error. -/
  ecdsaSign : Nat → Nat → Bytes → Option (Nat × Nat)
  /-- `ecdsa.Verify(&PublicKey{P256, X, Y}, digest, r, s)`. -/
  ecdsaVerify : Nat → Nat → Bytes → Nat → Nat → Bool
  /-- `base58.Encode`. -/
  base58Encode : Bytes → String
  /-- `base58.Decode`. -/
  base58Decode : String → Bytes
  /-- `NewBlock(txs, prevHash)` of the block file. -/
  NewBlock : List Transaction → Bytes → Block
  /-- Which of the orders the run time picks when `range` visits the entries of the
  given `map[string][]uint64`. -/
  rangeChoice : List (Bytes × List Nat) → Nat
  /-- `a + b` on `float64`. -/
  addFloat64 : ℚ → ℚ → ℚ
  /-- `a - b` on `float64`. -/
  subFloat64 : ℚ → ℚ → ℚ
  /-- `+` is correctly rounded: exact when the exact sum is a `float64` value. -/
  addFloat64_exact : ∀ a b, IsFloat64 (a + b) → addFloat64 a b = a + b
  /-- `-` is correctly rounded: exact when the exact difference is a `float64` value. -/
  subFloat64_exact : ∀ a b, IsFloat64 (a - b) → subFloat64 a b = a - b

/-! ## Go maps with `string` keys -/

abbrev GoMap (α : Type) := List (Bytes × α)

/-- Read of `m[k]`; the zero value `z` when the key is absent. -/
def GoMap.get {α : Type} (z : α) (m : GoMap α) (k : Bytes) : α :=
  match m with
  | [] => z
  | (k', v) :: rest => if k' = k then v else GoMap.get z rest k

/-- Write `m[k] = v`. -/
def GoMap.set {α : Type} (m : GoMap α) (k : Bytes) (v : α) : GoMap α :=
  match m with
  | [] => [(k, v)]
  | (k', v') :: rest => if k' = k then (k, v) :: rest else (k', v') :: GoMap.set rest k v

/-! ## `transaction.go` -/

/-- Source `IsCoinbase`: exactly one input, with empty `Txid` and `Index == -1`. -/
def Transaction.IsCoinbase (tx : Transaction) : Bool :=
  tx.TXInputs.length == 1 &&
    (match tx.TXInputs[0]? with
     | some inp => inp.Txid.length == 0 && inp.Index == -1
     | none => false)

/-- Source `SetHash`: gob-encode the transaction as it stands and store the SHA-256
of the encoding in `TXID`. -/
def Transaction.SetHash (P : Prims) (tx : Transaction) : Transaction :=
  { tx with TXID := P.sha256 (P.gobEncode tx) }

/-! ## `wallet.go` -/

/-- Source `HashPubKey`: RIPEMD-160 of SHA-256. -/
def HashPubKey (P : Prims) (data : Bytes) : Bytes :=
  P.ripemd160 (P.sha256 data)

/-! ## Chain store (`blockChain.go`) -/

/-- The bolt bucket `blockBucket` and the cached tip: `blocks` holds the entries
keyed by block hash (the value stands for the serialized block), `lastHashKey` the
entry under `"LastHashKey"`, `tail` the in-memory field. -/
structure BlockChain where
  blocks : GoMap Block
  lastHashKey : Bytes
  tail : Bytes
deriving DecidableEq, Repr

/-- `bucket.Get(hash)` followed by `Deserialize`; `none` when nothing is stored. -/
def BlockChain.getBlock (bc : BlockChain) (hash : Bytes) : Option Block :=
  (bc.blocks.find? (fun e => e.1 = hash)).map (fun e => e.2)

/-- Modelled from the spec: the iterator (`NewIterator`, `Next`) is in a file that is
not part of the sources. "Starts at `tail`. `next()` reads the block at the current
cursor, sets cursor to that block's `prev_hash`, returns the block."  `walkFrom n cur`
lists the blocks successive `Next` calls yield from cursor `cur`, at most `n` of them,
ending where the store has no block or after a block with empty `PrevHash`. -/
def BlockChain.walkFrom (bc : BlockChain) : Nat → Bytes → List Block
  | 0, _ => []
  | n + 1, cur =>
    match bc.getBlock cur with
    | none => []
    | some b => b :: (if b.PrevHash.length = 0 then [] else bc.walkFrom n b.PrevHash)

/-- Blocks the iterator yields from the tip.  A walk through more blocks than
the bucket holds revisits one, so the list is cut at that length: a loop that
has not stopped by then never stops. -/
def BlockChain.yielded (bc : BlockChain) : List Block :=
  bc.walkFrom bc.blocks.length bc.tail

/-- State of `FindUTXOTransactions`: the result slice and the `spentOutputs` map. -/
structure ScanState where
  txs : List Transaction
  spentOutputs : GoMap (List Int)
deriving DecidableEq, Repr

/-- The output loop of `FindUTXOTransactions` for one transaction, from output
number `i` on.  The flag is `false` when `continue OUTPUT` was taken, which leaves
the remaining outputs and the input loop of this transaction unvisited. -/
def scanOutputs (target : Bytes) (spent : List Int) (tx : Transaction) :
    List TXOutput → Nat → List Transaction → List Transaction × Bool
  | [], _, txs => (txs, true)
  | output :: rest, i, txs =>
    if spent.contains (i : Int) then (txs, false)
    else scanOutputs target spent tx rest (i + 1)
      (if output.PubKeyHash = target then txs ++ [tx] else txs)

/-- The input loop of `FindUTXOTransactions` for one transaction. -/
def scanInputs (P : Prims) (target : Bytes) (inputs : List TXInput)
    (spentOutputs : GoMap (List Int)) : GoMap (List Int) :=
  inputs.foldl
    (fun sp input =>
      if HashPubKey P input.PubKey = target then
        sp.set input.Txid (GoMap.get [] sp input.Txid ++ [input.Index])
      else sp)
    spentOutputs

/-- One transaction of the scan (the body of the loop labelled `OUTPUT`). -/
def scanTx (P : Prims) (target : Bytes) (st : ScanState) (tx : Transaction) : ScanState :=
  match scanOutputs target (GoMap.get [] st.spentOutputs tx.TXID) tx tx.TXOutputs 0 st.txs with
  | (txs, false) => { st with txs := txs }
  | (txs, true) =>
    if !tx.IsCoinbase then
      { txs := txs, spentOutputs := scanInputs P target tx.TXInputs st.spentOutputs }
    else { st with txs := txs }

/-- The `for { block := it.Next() ... }` loop over the blocks the iterator yields;
it stops after a block with empty `PrevHash`. -/
def scanBlocks (P : Prims) (target : Bytes) : List Block → ScanState → Option ScanState
  | [], _ => none
  | block :: rest, st =>
    let st1 := block.Transactions.foldl (scanTx P target) st
    if block.PrevHash.length = 0 then some st1 else scanBlocks P target rest st1

/-- Source `FindUTXOTransactions`. -/
def BlockChain.FindUTXOTransactions (P : Prims) (bc : BlockChain) (senderPubKeyHash : Bytes) :
    Option (List Transaction) :=
  (scanBlocks P senderPubKeyHash bc.yielded ⟨[], []⟩).map (fun st => st.txs)

/-- The two nested loops of `FindUTXOs` over the candidate transactions. -/
def collectOutputs (pubKeyHash : Bytes) (txs : List Transaction) : List TXOutput :=
  txs.foldl
    (fun utxo tx =>
      tx.TXOutputs.foldl
        (fun utxo output => if pubKeyHash = output.PubKeyHash then utxo ++ [output] else utxo)
        utxo)
    []

/-- Source `FindUTXOs`. -/
def BlockChain.FindUTXOs (P : Prims) (bc : BlockChain) (pubKeyHash : Bytes) :
    Option (List TXOutput) :=
  (bc.FindUTXOTransactions P pubKeyHash).map (collectOutputs pubKeyHash)

/-- Go indexing `tx.TXOutputs[idx]` with an `int64` index; `none` when out of range. -/
def Transaction.outputAt (tx : Transaction) (idx : Int) : Option TXOutput :=
  if 0 ≤ idx then tx.TXOutputs[idx.toNat]? else none

/-- `big.Int.Bytes`: big-endian bytes without leading zeros (empty for 0). -/
def natToBytes (n : Nat) : Bytes := (Nat.digits 256 n).reverse

/-- `big.Int.SetBytes`: the big-endian value of a byte string. -/
def bytesToNat (b : Bytes) : Nat := b.foldl (fun acc x => acc * 256 + x) 0

/-- The bytes `Sign` stores for a signature pair: `append(r.Bytes(), s.Bytes()...)`. -/
def encodeSignature (r s : Nat) : Bytes := natToBytes r ++ natToBytes s

/-- The pair `Verify` reads from a byte string: the halves before and after
`len/2`, each through `SetBytes`.  Used for the signature and for the public key. -/
def splitHalves (b : Bytes) : Nat × Nat :=
  (bytesToNat (b.take (b.length / 2)), bytesToNat (b.drop (b.length / 2)))

/-- Source `TrimmedCopy`: same `TXID` and outputs, inputs with `Signature` and
`PubKey` nil. -/
def Transaction.TrimmedCopy (tx : Transaction) : Transaction :=
  ⟨tx.TXID, tx.TXInputs.map (fun input => ⟨input.Txid, input.Index, [], []⟩), tx.TXOutputs⟩

/-- Assignment `tx.TXInputs[i].PubKey = pk`. -/
def Transaction.setInputPubKey (tx : Transaction) (i : Nat) (pk : Bytes) : Transaction :=
  match tx.TXInputs[i]? with
  | some inp => { tx with TXInputs := tx.TXInputs.set i { inp with PubKey := pk } }
  | none => tx

/-- Assignment `tx.TXInputs[i].Signature = sig`. -/
def Transaction.setInputSignature (tx : Transaction) (i : Nat) (sig : Bytes) : Transaction :=
  match tx.TXInputs[i]? with
  | some inp => { tx with TXInputs := tx.TXInputs.set i { inp with Signature := sig } }
  | none => tx

/-- The zero value `Transaction{}` a map read gives for an absent key. -/
def zeroTransaction : Transaction := ⟨[], [], []⟩

/-- The loop of `Sign` from input number `i` on.  `rest` are the inputs still to
visit, `tx` the transaction being signed, `txCopy` the trimmed copy as left by the
earlier iterations, `rand i` the randomness `ecdsa.Sign` draws for input `i`. -/
def signLoop (P : Prims) (privateKey : Nat) (prevTXs : GoMap Transaction) (rand : Nat → Nat) :
    List TXInput → Nat → Transaction → Transaction → Option Transaction
  | [], _, tx, _ => some tx
  | input :: rest, i, tx, txCopy =>
    let prevTX := GoMap.get zeroTransaction prevTXs input.Txid
    if prevTX.TXID.length = 0 then none
    else
      match prevTX.outputAt input.Index with
      | none => none
      | some out =>
        let hashed := (txCopy.setInputPubKey i out.PubKeyHash).SetHash P
        let txCopy1 := hashed.setInputPubKey i []
        match P.ecdsaSign privateKey (rand i) txCopy1.TXID with
        | none => none
        | some (r, s) =>
          signLoop P privateKey prevTXs rand rest (i + 1)
            (tx.setInputSignature i (encodeSignature r s)) txCopy1

/-- Source `Sign`. -/
def Transaction.Sign (P : Prims) (tx : Transaction) (privateKey : Nat)
    (prevTXs : GoMap Transaction) (rand : Nat → Nat) : Option Transaction :=
  if tx.IsCoinbase then some tx
  else signLoop P privateKey prevTXs rand tx.TrimmedCopy.TXInputs 0 tx tx.TrimmedCopy

/-- The loop of `Verify` from input number `i` on; `txCopy` is the trimmed copy as
left by the earlier iterations (the `PubKey` set for an input stays set). -/
def verifyLoop (P : Prims) (prevTXs : GoMap Transaction) :
    List TXInput → Nat → Transaction → Option Bool
  | [], _, _ => some true
  | input :: rest, i, txCopy =>
    let prevTX := GoMap.get zeroTransaction prevTXs input.Txid
    if prevTX.TXID.length = 0 then none
    else
      match prevTX.outputAt input.Index with
      | none => none
      | some out =>
        let txCopy1 := (txCopy.setInputPubKey i out.PubKeyHash).SetHash P
        let rs := splitHalves input.Signature
        let xy := splitHalves input.PubKey
        if !P.ecdsaVerify xy.1 xy.2 txCopy1.TXID rs.1 rs.2 then some false
        else verifyLoop P prevTXs rest (i + 1) txCopy1

/-- Source `Verify`. -/
def Transaction.Verify (P : Prims) (tx : Transaction) (prevTXs : GoMap Transaction) :
    Option Bool :=
  if tx.IsCoinbase then some true
  else verifyLoop P prevTXs tx.TXInputs 0 tx.TrimmedCopy

/-- The loop of `FindTransactionByTXid` over the blocks the iterator yields.  The
inner `none` is the error return. -/
def findTxLoop (id : Bytes) : List Block → Option (Option Transaction)
  | [] => none
  | block :: rest =>
    match block.Transactions.find? (fun tx => tx.TXID = id) with
    | some tx => some (some tx)
    | none => if block.PrevHash.length = 0 then some none else findTxLoop id rest

/-- Source `FindTransactionByTXid`. -/
def BlockChain.FindTransactionByTXid (bc : BlockChain) (id : Bytes) :
    Option (Option Transaction) :=
  findTxLoop id bc.yielded

/-- The loop shared by `SignTransaction` and `VerifyTransaction` that fills
`prevTXs`; a failed lookup is `log.Panic`. -/
def BlockChain.collectPrevTXs (bc : BlockChain) :
    List TXInput → GoMap Transaction → Option (GoMap Transaction)
  | [], prevTXs => some prevTXs
  | input :: rest, prevTXs =>
    match bc.FindTransactionByTXid input.Txid with
    | some (some tx) => bc.collectPrevTXs rest (prevTXs.set input.Txid tx)
    | _ => none

/-- Source `SignTransaction`. -/
def BlockChain.SignTransaction (P : Prims) (bc : BlockChain) (tx : Transaction)
    (privateKey : Nat) (rand : Nat → Nat) : Option Transaction :=
  match bc.collectPrevTXs tx.TXInputs [] with
  | none => none
  | some prevTXs => tx.Sign P privateKey prevTXs rand

/-- Source `VerifyTransaction`. -/
def BlockChain.VerifyTransaction (P : Prims) (bc : BlockChain) (tx : Transaction) :
    Option Bool :=
  if tx.IsCoinbase then some true
  else
    match bc.collectPrevTXs tx.TXInputs [] with
    | none => none
    | some prevTXs => tx.Verify P prevTXs

/-- The verification loop at the head of `AddBlock`: `some false` when it reaches
a transaction that fails, `some true` when all pass. -/
def BlockChain.verifyAll (P : Prims) (bc : BlockChain) : List Transaction → Option Bool
  | [] => some true
  | tx :: rest =>
    match bc.VerifyTransaction P tx with
    | none => none
    | some false => some false
    | some true => bc.verifyAll P rest

/-- The write transaction of `AddBlock`: both `Put`s and the update of `tail`. -/
def BlockChain.append (bc : BlockChain) (block : Block) : BlockChain :=
  ⟨bc.blocks.set block.Hash block, block.Hash, block.Hash⟩

/-- Source `AddBlock`: the state after the call.  The only `none` comes from the
verification loop, which runs before anything is written. -/
def BlockChain.AddBlock (P : Prims) (bc : BlockChain) (txs : List Transaction) :
    Option BlockChain :=
  match bc.verifyAll P txs with
  | none => none
  | some false => some bc
  | some true => some (bc.append (P.NewBlock txs bc.tail))

/-- State of `FindNeedUTXOs`: the `utxos` map and the running total `calc` (`calcSum`). -/
structure NeedState where
  utxos : GoMap (List Nat)
  calcSum : ℚ
deriving DecidableEq, Repr

/-- The output loop of `FindNeedUTXOs` for one candidate transaction, from output
number `i` on; the flag is `true` when the function returned inside the loop. -/
def needOutputs (P : Prims) (senderPubKeyHash : Bytes) (amount : ℚ) (txid : Bytes) :
    List TXOutput → Nat → NeedState → NeedState × Bool
  | [], _, st => (st, false)
  | output :: rest, i, st =>
    if senderPubKeyHash = output.PubKeyHash then
      if st.calcSum < amount then
        let st1 : NeedState :=
          ⟨st.utxos.set txid (GoMap.get [] st.utxos txid ++ [i]),
            P.addFloat64 st.calcSum output.Value⟩
        if st1.calcSum ≥ amount then (st1, true)
        else needOutputs P senderPubKeyHash amount txid rest (i + 1) st1
      else needOutputs P senderPubKeyHash amount txid rest (i + 1) st
    else needOutputs P senderPubKeyHash amount txid rest (i + 1) st

/-- The loop of `FindNeedUTXOs` over the candidate transactions. -/
def needTxs (P : Prims) (senderPubKeyHash : Bytes) (amount : ℚ) :
    List Transaction → NeedState → NeedState
  | [], st => st
  | tx :: rest, st =>
    match needOutputs P senderPubKeyHash amount tx.TXID tx.TXOutputs 0 st with
    | (st1, true) => st1
    | (st1, false) => needTxs P senderPubKeyHash amount rest st1

/-- Source `FindNeedUTXOs`. -/
def BlockChain.FindNeedUTXOs (P : Prims) (bc : BlockChain) (senderPubKeyHash : Bytes)
    (amount : ℚ) : Option (GoMap (List Nat) × ℚ) :=
  (bc.FindUTXOTransactions P senderPubKeyHash).map
    (fun txs =>
      let st := needTxs P senderPubKeyHash amount txs ⟨[], 0⟩
      (st.utxos, st.calcSum))

/-! ## `wallet.go`, `wallets.go` and the constructors of `transaction.go` -/

/-- A wallet: the private scalar and `PubKey` (X and Y concatenated). -/
structure Wallet where
  Private : Nat
  PubKey : Bytes
deriving DecidableEq, Repr

/-- Source `GetPubKeyFromAddress`: `addressByte[1:len-4]`, a run-time panic when the
decoded address has fewer than 5 bytes. -/
def GetPubKeyFromAddress (P : Prims) (address : String) : Option Bytes :=
  let addressByte := P.base58Decode address
  if 5 ≤ addressByte.length then some ((addressByte.take (addressByte.length - 4)).drop 1)
  else none

/-- Source `NewTXOutput` (with `Lock`). -/
def NewTXOutput (P : Prims) (value : ℚ) (address : String) : Option TXOutput :=
  (GetPubKeyFromAddress P address).map (fun pkh => ⟨value, pkh⟩)

/-- The constant `reward`. -/
def reward : ℚ := 25 / 2

/-- Source `NewCoinbaseTX`; `data` is the byte content of the string argument. -/
def NewCoinbaseTX (P : Prims) (address : String) (data : Bytes) : Option Transaction :=
  (NewTXOutput P reward address).map
    (fun output => Transaction.SetHash P ⟨[], [⟨[], -1, [], data⟩], [output]⟩)

/-- Source `CheckSum`: the first 4 bytes of the double SHA-256. -/
def CheckSum (P : Prims) (data : Bytes) : Bytes :=
  (P.sha256 (P.sha256 data)).take 4

/-- Source `NewAdress`: Base58 of version byte 0, public-key hash and checksum. -/
def Wallet.NewAdress (P : Prims) (w : Wallet) : String :=
  let payload := [0] ++ HashPubKey P w.PubKey
  P.base58Encode (payload ++ CheckSum P payload)

/-- Source `IsValidAddress`: `false` under 4 decoded bytes, else whether the last 4
bytes are the checksum of the bytes before them. -/
def IsValidAddress (P : Prims) (address : String) : Bool :=
  let addressByte := P.base58Decode address
  if addressByte.length < 4 then false
  else
    decide (addressByte.drop (addressByte.length - 4) =
      CheckSum P (addressByte.take (addressByte.length - 4)))

/-- The entries of a `map[string][]uint64` in the order `range` visits them: one of
the permutations of the entries, the one the run time picks. -/
def rangeOrder (P : Prims) (m : GoMap (List Nat)) : GoMap (List Nat) :=
  m.permutations.getD (P.rangeChoice m % m.permutations.length) m

/-- The input-building loops of `NewTransaction` over the entries of the `utxos`
map in the order they are visited. -/
def buildInputs (pubKey : Bytes) (utxos : GoMap (List Nat)) : List TXInput :=
  (utxos.map (fun e => e.2.map (fun (i : Nat) => (⟨e.1, (i : Int), [], pubKey⟩ : TXInput)))).flatten

/-- Source `NewTransaction`.  `ws` is the map `NewWallets()` loads from the wallet
file.  The inner `none` is the `nil` return. -/
def NewTransaction (P : Prims) (ws : List (String × Wallet)) (rand : Nat → Nat)
    (sender receiver : String) (amount : ℚ) (bc : BlockChain) : Option (Option Transaction) :=
  match ws.lookup sender with
  | none => some none
  | some wallet =>
    match bc.FindNeedUTXOs P (HashPubKey P wallet.PubKey) amount with
    | none => none
    | some (utxos, resValue) =>
      if resValue < amount then some none
      else
        match NewTXOutput P amount receiver with
        | none => none
        | some output =>
          let change : Option (List TXOutput) :=
            if resValue > amount then
              (NewTXOutput P (P.subFloat64 resValue amount) sender).map (fun o => [o])
            else some []
          match change with
          | none => none
          | some extra =>
            let tx : Transaction :=
              Transaction.SetHash P
                ⟨[], buildInputs wallet.PubKey (rangeOrder P utxos), output :: extra⟩
            (bc.SignTransaction P tx wallet.Private rand).map some

/-! ## Well-formed chains and the reference reading of "unspent" -/

/-- All transactions of the given blocks, in scan order. -/
def allTxs (blocks : List Block) : List Transaction :=
  (blocks.map (fun b => b.Transactions)).flatten

/-- The `(Txid, Index)` pairs the inputs of a non-coinbase transaction reference. -/
def refsOf (tx : Transaction) : List (Bytes × Int) :=
  if tx.IsCoinbase then [] else tx.TXInputs.map (fun inp => (inp.Txid, inp.Index))

/-- Every pair referenced by an input of the given blocks. -/
def allRefs (blocks : List Block) : List (Bytes × Int) :=
  ((allTxs blocks).map refsOf).flatten

/-- The blocks are linked tip to genesis: only the last has an empty `PrevHash`,
and every other `PrevHash` is the hash of the next block in the list. -/
def linked : List Block → Prop
  | [] => False
  | [g] => g.PrevHash = []
  | b :: b' :: rest => b.PrevHash ≠ [] ∧ b.PrevHash = b'.Hash ∧ linked (b' :: rest)

/-- Input `inp` references an output of a transaction of `older`, and its `PubKey`
hashes to that output's `PubKeyHash`. -/
def resolvesIn (P : Prims) (older : List Block) (inp : TXInput) : Prop :=
  ∃ tx ∈ allTxs older, tx.TXID = inp.Txid ∧
    ∃ o, tx.outputAt inp.Index = some o ∧ HashPubKey P inp.PubKey = o.PubKeyHash

/-- Every non-coinbase input references an output of an earlier block (later in the
tip-first list) that its `PubKey` owns. -/
def inputsResolve (P : Prims) : List Block → Prop
  | [] => True
  | b :: older =>
    (∀ tx ∈ b.Transactions, tx.IsCoinbase = false → ∀ inp ∈ tx.TXInputs, resolvesIn P older inp) ∧
      inputsResolve P older

/-- Well-formed chain: linear from tip to genesis, distinct txids, inputs reference
owned outputs of earlier blocks, no output referenced twice. -/
structure WellFormed (P : Prims) (blocks : List Block) : Prop where
  isLinked : linked blocks
  txidsDistinct : ((allTxs blocks).map (fun tx => tx.TXID)).Nodup
  resolve : inputsResolve P blocks
  spentOnce : (allRefs blocks).Nodup

/-- Outputs of one transaction locked to `h` that no input of the chain references,
from output number `i` on. -/
def unspentOf (refs : List (Bytes × Int)) (h : Bytes) (txid : Bytes) :
    List TXOutput → Nat → List TXOutput
  | [], _ => []
  | o :: rest, i =>
    if o.PubKeyHash = h ∧ (txid, (i : Int)) ∉ refs then o :: unspentOf refs h txid rest (i + 1)
    else unspentOf refs h txid rest (i + 1)

/-- The outputs locked to `h` that no input in the chain references, each once. -/
def unspentOutputs (blocks : List Block) (h : Bytes) : List TXOutput :=
  ((allTxs blocks).map (fun tx => unspentOf (allRefs blocks) h tx.TXID tx.TXOutputs 0)).flatten

/-- Sum of the values of a list of outputs. -/
def totalValue (outs : List TXOutput) : ℚ := (outs.map (fun o => o.Value)).sum

/-! ## A chain in which the sender pays itself -/

/-- Genesis coinbase, paying `h`. -/
def selfPayGenesisTx (h : Bytes) : Transaction :=
  ⟨[1], [⟨[], -1, [], [71]⟩], [⟨25 / 2, h⟩]⟩

/-- Coinbase of the second block, paying `h`. -/
def selfPayRewardTx (h : Bytes) : Transaction :=
  ⟨[2], [⟨[], -1, [], [82]⟩], [⟨25 / 2, h⟩]⟩

/-- Transfer of 4 from the owner of `pk` to itself: spends the genesis output and
has two outputs (amount and change) both locked to `h`. -/
def selfPayTx (pk h : Bytes) : Transaction :=
  ⟨[3], [⟨[1], 0, [], pk⟩], [⟨4, h⟩, ⟨17 / 2, h⟩]⟩

/-- Genesis block: empty `PrevHash`, hash `[10]`. -/
def selfPayGenesis (h : Bytes) : Block :=
  ⟨0, [], [], 0, 16, 0, [10], [selfPayGenesisTx h]⟩

/-- Second block, on top of the genesis block: the reward and the transfer. -/
def selfPayBlock (pk h : Bytes) : Block :=
  ⟨0, [10], [], 1, 16, 0, [11], [selfPayRewardTx h, selfPayTx pk h]⟩

/-- Store after `createBlockChain A` and `send A A 4`. -/
def selfPayChain (pk h : Bytes) : BlockChain :=
  ⟨[([10], selfPayGenesis h), ([11], selfPayBlock pk h)], [11], [11]⟩

/-! ## A chain with two successive payments by the same sender -/

/-- First payment: spends the genesis output, pays 4 to `hB`, change 17/2 to `h`. -/
def firstPayTx (pk h hB : Bytes) : Transaction :=
  ⟨[3], [⟨[1], 0, [], pk⟩], [⟨4, hB⟩, ⟨17 / 2, h⟩]⟩

/-- Second payment: spends the change of the first, pays 5 to `hC`, change 7/2 to `h`. -/
def secondPayTx (pk h hC : Bytes) : Transaction :=
  ⟨[4], [⟨[3], 1, [], pk⟩], [⟨5, hC⟩, ⟨7 / 2, h⟩]⟩

/-- Store after the genesis block paying `h` and two blocks with one payment each. -/
def twoPayChain (pk h hB hC : Bytes) : BlockChain :=
  ⟨[([10], selfPayGenesis h),
    ([11], ⟨0, [10], [], 1, 16, 0, [11], [firstPayTx pk h hB]⟩),
    ([12], ⟨0, [11], [], 2, 16, 0, [12], [secondPayTx pk h hC]⟩)], [12], [12]⟩

/-! ## A chain in which a transaction has a spent and an unspent output of one owner -/

/-- Spends the genesis output; both outputs, 17/2 and 4, are locked to `h`. -/
def splitTx (pk h : Bytes) : Transaction :=
  ⟨[3], [⟨[1], 0, [], pk⟩], [⟨17 / 2, h⟩, ⟨4, h⟩]⟩

/-- Spends output 0 of `splitTx`, paying `hC`. -/
def spendSplitTx (pk hC : Bytes) : Transaction :=
  ⟨[4], [⟨[3], 0, [], pk⟩], [⟨17 / 2, hC⟩]⟩

/-- Store with the genesis block paying `h`, a block with `splitTx` and a block with
`spendSplitTx`. -/
def splitChain (pk h hC : Bytes) : BlockChain :=
  ⟨[([10], selfPayGenesis h),
    ([11], ⟨0, [10], [], 1, 16, 0, [11], [splitTx pk h]⟩),
    ([12], ⟨0, [11], [], 2, 16, 0, [12], [spendSplitTx pk hC]⟩)], [12], [12]⟩

/-- A transaction whose input references output number `idx` of transaction `[7]`,
with empty signature and public key. -/
def indexTx (idx : Int) : Transaction :=
  ⟨[9], [⟨[7], idx, [], []⟩], [⟨25 / 2, [5, 5]⟩]⟩

/-! ## The reference reading of the selection made by `FindNeedUTXOs` -/

/-- The outputs of one transaction locked to `h`, from output number `i` on, each
as `(txid, output number, value)`. -/
def lockedIn (h : Bytes) (txid : Bytes) : List TXOutput → Nat → List (Bytes × Nat × ℚ)
  | [], _ => []
  | o :: rest, i =>
    if h = o.PubKeyHash then (txid, i, o.Value) :: lockedIn h txid rest (i + 1)
    else lockedIn h txid rest (i + 1)

/-- The outputs locked to `h` of the candidate transactions, in scan order. -/
def lockedOutputs (h : Bytes) (txs : List Transaction) : List (Bytes × Nat × ℚ) :=
  (txs.map (fun tx => lockedIn h tx.TXID tx.TXOutputs 0)).flatten

/-- The map from txid to output numbers that holds the given selection. -/
def recordPairs (sel : List (Bytes × Nat × ℚ)) (m : GoMap (List Nat)) : GoMap (List Nat) :=
  sel.foldl (fun m e => m.set e.1 (GoMap.get [] m e.1 ++ [e.2.1])) m

/-- The `float64` sum of the values of a selection, added in order from `acc`. -/
def runningSum (P : Prims) (acc : ℚ) (sel : List (Bytes × Nat × ℚ)) : ℚ :=
  sel.foldl (fun a e => P.addFloat64 a e.2.2) acc

/-- The selection loop of `FindNeedUTXOs` run over the flat list of locked outputs. -/
def needFlat (P : Prims) (amount : ℚ) :
    List (Bytes × Nat × ℚ) → NeedState → NeedState × Bool
  | [], st => (st, false)
  | e :: rest, st =>
    if st.calcSum < amount then
      if P.addFloat64 st.calcSum e.2.2 ≥ amount then
        (⟨st.utxos.set e.1 (GoMap.get [] st.utxos e.1 ++ [e.2.1]),
          P.addFloat64 st.calcSum e.2.2⟩, true)
      else
        needFlat P amount rest
          ⟨st.utxos.set e.1 (GoMap.get [] st.utxos e.1 ++ [e.2.1]),
            P.addFloat64 st.calcSum e.2.2⟩
    else needFlat P amount rest st

/-! ## Reading the result of `NewTransaction` -/

/-- What an input references and the key it carries: everything but the signature. -/
def TXInput.core (inp : TXInput) : Bytes × Int × Bytes := (inp.Txid, inp.Index, inp.PubKey)

/-- The `(txid, output number)` pairs a selection map holds, key by key. -/
def selectedPairs (utxos : GoMap (List Nat)) : List (Bytes × Nat) :=
  (utxos.map (fun e => e.2.map (fun (i : Nat) => (e.1, i)))).flatten

/-- The outputs `NewTransaction` builds: `(amount, receiver)` and, when the selected
sum exceeds the amount, the change `(sum - amount, sender)`, the difference taken in
`float64`. -/
def paymentOutputs (P : Prims) (resValue amount : ℚ) (pkhTo pkhFrom : Bytes) :
    List TXOutput :=
  ⟨amount, pkhTo⟩ ::
    (if resValue > amount then [⟨P.subFloat64 resValue amount, pkhFrom⟩] else [])

/-- The transaction `NewTransaction` hands to `SignTransaction`. -/
def unsignedTransaction (P : Prims) (pubKey : Bytes) (utxos : GoMap (List Nat))
    (resValue amount : ℚ) (pkhTo pkhFrom : Bytes) : Transaction :=
  Transaction.SetHash P
    ⟨[], buildInputs pubKey utxos, paymentOutputs P resValue amount pkhTo pkhFrom⟩

/-! ## Walks that end at a genesis block -/

/-- The walk from the tip ends at a block with empty `PrevHash`: the store holds a
chain from the tip back to a genesis block. -/
def BlockChain.reachesGenesis (bc : BlockChain) : Prop :=
  ∃ b, bc.yielded.getLast? = some b ∧ b.PrevHash.length = 0

/-- What `FindTransactionByTXid` gives for an id, the zero transaction when it gives
none. -/
def BlockChain.resolveTx (bc : BlockChain) (id : Bytes) : Transaction :=
  match bc.FindTransactionByTXid id with
  | some (some tx) => tx
  | _ => zeroTransaction

/-- The scan run over every block of a walk, tip first: the state it leaves. -/
def scanWalk (P : Prims) (target : Bytes) (blocks : List Block) (st : ScanState) : ScanState :=
  blocks.foldl (fun st b => b.Transactions.foldl (scanTx P target) st) st

/-! ## Transactions used as concrete inputs -/

/-- A coinbase whose single output is locked to `owner`. -/
def fundingTx (txid owner : Bytes) : Transaction :=
  ⟨txid, [⟨[], -1, [], [71]⟩], [⟨25 / 2, owner⟩]⟩

/-- A transaction with one input spending output 0 of transaction `[7]`, carrying
public key `pk` and signature `sig`, paying `dest`. -/
def spendTx (pk sig dest : Bytes) : Transaction :=
  ⟨[9], [⟨[7], 0, sig, pk⟩], [⟨25 / 2, dest⟩]⟩

/-- What `Verify` hashes for the input of `spendTx` when output 0 of `[7]` is
locked to `owner`. -/
def spendTxCopy (owner dest : Bytes) : Transaction :=
  ⟨[9], [⟨[7], 0, [], owner⟩], [⟨25 / 2, dest⟩]⟩

/-- A transaction with two inputs, spending output 0 of `[7]` and output 0 of `[8]`. -/
def twoInputTx (txid pk sig0 sig1 dest : Bytes) : Transaction :=
  ⟨txid, [⟨[7], 0, sig0, pk⟩, ⟨[8], 0, sig1, pk⟩], [⟨25, dest⟩]⟩

/-- The trimmed copy of `twoInputTx` with `TXID` `txid` and the two `PubKey`
fields set to `k0` and `k1`. -/
def twoInputCopy (txid k0 k1 dest : Bytes) : Transaction :=
  ⟨txid, [⟨[7], 0, [], k0⟩, ⟨[8], 0, [], k1⟩], [⟨25, dest⟩]⟩

/-- The map of referenced transactions for `twoInputTx`, both outputs locked to `h`. -/
def twoInputPrevTXs (h : Bytes) : GoMap Transaction :=
  [([7], fundingTx [7] h), ([8], fundingTx [8] h)]

/-- A store holding one block, whose only transaction is `fundingTx [7] owner`. -/
def fundedChain (owner : Bytes) : BlockChain :=
  ⟨[([1], ⟨0, [], [7], 0, 16, 0, [1], [fundingTx [7] owner]⟩)], [1], [1]⟩

/-- A store holding one block whose only transaction is a coinbase with an empty
`TXID` paying `owner`, as `AddBlock` accepts it. -/
def emptyTxidChain (owner : Bytes) : BlockChain :=
  ⟨[([1], ⟨0, [], [], 0, 16, 0, [1], [fundingTx [] owner]⟩)], [1], [1]⟩

/-- A store holding two blocks whose transactions share the `TXID` `[7]`: the one in
the tip block has one output, for `other`; the one in the genesis block has two, the
second for `owner`. -/
def twinTxidChain (owner other : Bytes) : BlockChain :=
  ⟨[([1], ⟨0, [], [], 0, 16, 0, [1],
        [⟨[7], [⟨[], -1, [], [71]⟩], [⟨1, other⟩, ⟨25 / 2, owner⟩]⟩]⟩),
      ([2], ⟨0, [1], [], 0, 16, 0, [2], [⟨[7], [⟨[], -1, [], [82]⟩], [⟨1, other⟩]⟩]⟩)],
    [2], [2]⟩

/-- The wallet file of the concrete examples: one wallet, key `(119, 119)`. -/
def toyWallets : List (String × Wallet) := [("Awwcccc", ⟨119, [119, 119]⟩)]

/-- Order of the P-256 base point. -/
def p256Order : Nat :=
  115792089210356248762697446949407573529996955224135760342422259061068512044369

/-! ## A concrete instantiation of the library functions

Used to evaluate the definitions on concrete inputs: the hashes are the identity, the
encoding lists every field behind its length, Base58 is the character codes, the
signature scheme is a one-byte toy in which the public key is `(d, d)` for the
private scalar `d`, `range` visits a map in insertion order and `float64` arithmetic
is exact (the values met in the examples are dyadic and small). -/

/-- A byte string behind its length. -/
def listBytes (b : Bytes) : Bytes := b.length :: b

/-- The fields of an input, in order. -/
def listInput (inp : TXInput) : Bytes :=
  listBytes inp.Txid ++ [inp.Index.natAbs, if inp.Index < 0 then 1 else 0] ++
    listBytes inp.Signature ++ listBytes inp.PubKey

/-- The fields of an output: numerator, sign and denominator of the value, then the hash. -/
def listOutput (o : TXOutput) : Bytes :=
  [o.Value.num.natAbs, if o.Value < 0 then 1 else 0, o.Value.den] ++ listBytes o.PubKeyHash

/-- The fields of a transaction, in order; stands in for the gob encoding. -/
def listTransaction (tx : Transaction) : Bytes :=
  listBytes tx.TXID ++ tx.TXInputs.length :: (tx.TXInputs.map listInput).flatten ++
    tx.TXOutputs.length :: (tx.TXOutputs.map listOutput).flatten

/-- Toy signing: `r` from the randomness, `s` from the digest, the key and `r`. -/
def toySign (d k : Nat) (digest : Bytes) : Option (Nat × Nat) :=
  some (k % 255 + 1, (digest.sum + d * (k % 255 + 1)) % 255 + 1)

/-- Toy verification: accepts the `s` that `toySign` computes for key `x = y`. -/
def toyVerify (x y : Nat) (digest : Bytes) (r s : Nat) : Bool :=
  x == y && s == (digest.sum + x * r) % 255 + 1

/-- Toy block constructor: hash `1 :: prevHash`, no proof of work. -/
def toyNewBlock (txs : List Transaction) (prevHash : Bytes) : Block :=
  ⟨0, prevHash, (txs.map (fun tx => tx.TXID)).flatten, 0, 16, 0, 1 :: prevHash, txs⟩

/-- The concrete instantiation. -/
def toyPrims : Prims where
  sha256 := id
  ripemd160 := id
  gobEncode := listTransaction
  ecdsaSign := toySign
  ecdsaVerify := toyVerify
  base58Encode := fun b => String.mk (b.map Char.ofNat)
  base58Decode := fun s => s.toList.map Char.toNat
  NewBlock := toyNewBlock
  rangeChoice := fun _ => 0
  addFloat64 := fun a b => a + b
  subFloat64 := fun a b => a - b
  addFloat64_exact := fun _ _ _ => rfl
  subFloat64_exact := fun _ _ _ => rfl

/-! ## Base58 and a fixed-width instantiation for addresses -/

/-- The Bitcoin alphabet. -/
def base58Alphabet : List Char :=
  "123456789ABCDEFGHJKLMNPQRSTUVWXYZabcdefghijkmnopqrstuvwxyz".toList

/-- Modelled from the spec: `base58.Encode` belongs to the library directory of the
repository, which is not part of the sources; "`base58` uses the Bitcoin alphabet".
One `1` per leading zero byte, then the big-endian value of the bytes in base 58. -/
def base58Encode (b : Bytes) : String :=
  String.mk (List.replicate (b.takeWhile (fun x => x = 0)).length '1' ++
    (Nat.digits 58 (bytesToNat b)).reverse.map (fun d => base58Alphabet.getD d '1'))

/-- Modelled from the spec: `base58.Decode`, the inverse reading (one zero byte per
leading `1`, then the bytes of the base-58 value); empty on a character outside the
alphabet. -/
def base58Decode (s : String) : Bytes :=
  if s.toList.all (fun c => base58Alphabet.contains c) then
    List.replicate (s.toList.takeWhile (fun c => c = '1')).length 0 ++
      natToBytes (s.toList.foldl (fun acc c => acc * 58 + base58Alphabet.indexOf c) 0)
  else []

/-- A stand-in hash of fixed width `n`: the input cut or zero-padded to `n` bytes. -/
def fixedHash (n : Nat) (b : Bytes) : Bytes := (b ++ List.replicate n 0).take n

/-- The instantiation used for addresses: Base58 as modelled, 32-byte and 20-byte
stand-in hashes. -/
def addressPrims : Prims :=
  { toyPrims with
    sha256 := fixedHash 32
    ripemd160 := fixedHash 20
    base58Encode := base58Encode
    base58Decode := base58Decode }

/-- The address bytes of the wallet with public key `[7]` under `addressPrims`:
version, 20-byte hash, 4-byte checksum. -/
def sampleAddressBytes : Bytes :=
  [0, 7, 0, 0, 0, 0, 0, 0, 0, 0, 0, 0, 0, 0, 0, 0, 0, 0, 0, 0, 0, 0, 7, 0, 0]

/-! ## SHA-256 written out (FIPS 180-4), for concrete checksums -/

/-- Rotation of a 32-bit word to the right. -/
def rotr32 (x n : Nat) : Nat := ((x >>> n) ||| (x <<< (32 - n))) % 4294967296

/-- The 64 round constants: the first 32 bits of the fractional parts of the cube
roots of the first 64 primes. -/
def sha256K : List Nat :=
  [1116352408, 1899447441, 3049323471, 3921009573, 961987163, 1508970993, 2453635748, 2870763221,
   3624381080, 310598401, 607225278, 1426881987, 1925078388, 2162078206, 2614888103, 3248222580,
   3835390401, 4022224774, 264347078, 604807628, 770255983, 1249150122, 1555081692, 1996064986,
   2554220882, 2821834349, 2952996808, 3210313671, 3336571891, 3584528711, 113926993, 338241895,
   666307205, 773529912, 1294757372, 1396182291, 1695183700, 1986661051, 2177026350, 2456956037,
   2730485921, 2820302411, 3259730800, 3345764771, 3516065817, 3600352804, 4094571909, 275423344,
   430227734, 506948616, 659060556, 883997877, 958139571, 1322822218, 1537002063, 1747873779,
   1955562222, 2024104815, 2227730452, 2361852424, 2428436474, 2756734187, 3204031479, 3329325298]

/-- The initial hash value: the first 32 bits of the fractional parts of the square
roots of the first 8 primes. -/
def sha256Init : List Nat :=
  [1779033703, 3144134277, 1013904242, 2773480762, 1359893119, 2600822924, 528734635, 1541459225]

/-- The 4 big-endian bytes of a 32-bit word. -/
def wordBytes (w : Nat) : Bytes := [w / 16777216 % 256, w / 65536 % 256, w / 256 % 256, w % 256]

/-- The `n` big-endian bytes of `v`. -/
def beBytes : Nat → Nat → Bytes
  | 0, _ => []
  | n + 1, v => beBytes n (v / 256) ++ [v % 256]

/-- Padding: the message, the byte `128`, zeros up to 56 modulo 64, and the bit
length in 8 bytes. -/
def sha256Pad (msg : Bytes) : Bytes :=
  msg ++ [128] ++ List.replicate ((119 - msg.length % 64) % 64) 0 ++ beBytes 8 (8 * msg.length)

/-- The first `n` big-endian 32-bit words of a byte string. -/
def toWords : Nat → Bytes → List Nat
  | 0, _ => []
  | n + 1, b =>
    (b.getD 0 0 * 16777216 + b.getD 1 0 * 65536 + b.getD 2 0 * 256 + b.getD 3 0) ::
      toWords n (b.drop 4)

/-- The message schedule, extended by `n` words. -/
def sha256Extend : Nat → List Nat → List Nat
  | 0, w => w
  | n + 1, w =>
    let i := w.length
    let w15 := w.getD (i - 15) 0
    let w2 := w.getD (i - 2) 0
    let s0 := (rotr32 w15 7) ^^^ (rotr32 w15 18) ^^^ (w15 >>> 3)
    let s1 := (rotr32 w2 17) ^^^ (rotr32 w2 19) ^^^ (w2 >>> 10)
    sha256Extend n (w ++ [(w.getD (i - 16) 0 + s0 + w.getD (i - 7) 0 + s1) % 4294967296])

/-- One round of the compression function on the working variables `a .. h`. -/
def sha256Round (st : List Nat) (kw : Nat × Nat) : List Nat :=
  match st with
  | [a, b, c, d, e, f, g, h] =>
    let s1 := (rotr32 e 6) ^^^ (rotr32 e 11) ^^^ (rotr32 e 25)
    let ch := (e &&& f) ^^^ ((4294967295 - e) &&& g)
    let t1 := (h + s1 + ch + kw.1 + kw.2) % 4294967296
    let s0 := (rotr32 a 2) ^^^ (rotr32 a 13) ^^^ (rotr32 a 22)
    let maj := (a &&& b) ^^^ (a &&& c) ^^^ (b &&& c)
    let t2 := (s0 + maj) % 4294967296
    [(t1 + t2) % 4294967296, a, b, c, (d + t1) % 4294967296, e, f, g]
  | _ => st

/-- The compression of one 64-byte block into the hash value. -/
def sha256Compress (h : List Nat) (block : Bytes) : List Nat :=
  let w := sha256Extend 48 (toWords 16 block)
  let st := (sha256K.zip w).foldl sha256Round h
  List.zipWith (fun x y => (x + y) % 4294967296) h st

/-- The first `n` 64-byte blocks of a byte string. -/
def sha256Blocks : Nat → Bytes → List Bytes
  | 0, _ => []
  | n + 1, b => b.take 64 :: sha256Blocks n (b.drop 64)

/-- SHA-256 of a byte string, as the standard defines it. -/
def sha256 (msg : Bytes) : Bytes :=
  let p := sha256Pad msg
  (((sha256Blocks (p.length / 64) p).foldl sha256Compress sha256Init).map wordBytes).flatten

/-- The instantiation with SHA-256 as the standard defines it and Base58 as modelled;
the other fields are those of `addressPrims`. -/
def sha256Prims : Prims :=
  { addressPrims with sha256 := sha256 }

/-! ## `float64` arithmetic written out (IEEE 754, round to nearest, ties to even) -/

/-- C1 (fails on the code).  On the chain left by `createBlockChain A; send A A 4`,
which is well formed, the outputs locked to `A` that no input references are the
second reward, the amount and the change (total 25), each once; `FindUTXOs` returns
the amount and the change twice (total 75/2): the transfer has two outputs locked to
`A`, so `FindUTXOTransactions` lists it twice and `FindUTXOs` flattens it twice. -/
theorem C1_findUTXOs_repeats_outputs (P : Prims) (pk : Bytes) :
    WellFormed P (selfPayChain pk (HashPubKey P pk)).yielded ∧
    unspentOutputs (selfPayChain pk (HashPubKey P pk)).yielded (HashPubKey P pk) =
      [⟨25 / 2, HashPubKey P pk⟩, ⟨4, HashPubKey P pk⟩, ⟨17 / 2, HashPubKey P pk⟩] ∧
    (selfPayChain pk (HashPubKey P pk)).FindUTXOs P (HashPubKey P pk) =
      some [⟨25 / 2, HashPubKey P pk⟩, ⟨4, HashPubKey P pk⟩, ⟨17 / 2, HashPubKey P pk⟩,
        ⟨4, HashPubKey P pk⟩, ⟨17 / 2, HashPubKey P pk⟩] ∧
    totalValue (unspentOutputs (selfPayChain pk (HashPubKey P pk)).yielded (HashPubKey P pk)) = 25 ∧
    ((selfPayChain pk (HashPubKey P pk)).FindUTXOs P (HashPubKey P pk)).map totalValue =
      some (75 / 2) := by
  have hy : (selfPayChain pk (HashPubKey P pk)).yielded =
      [selfPayBlock pk (HashPubKey P pk), selfPayGenesis (HashPubKey P pk)] := by
    simp [BlockChain.yielded, BlockChain.walkFrom, selfPayChain, BlockChain.getBlock,
      selfPayBlock, selfPayGenesis]
  have hu : unspentOutputs (selfPayChain pk (HashPubKey P pk)).yielded (HashPubKey P pk) =
      [⟨25 / 2, HashPubKey P pk⟩, ⟨4, HashPubKey P pk⟩, ⟨17 / 2, HashPubKey P pk⟩] := by
    rw [hy]
    simp [unspentOutputs, unspentOf, allRefs, allTxs, refsOf, selfPayBlock, selfPayGenesis,
      selfPayRewardTx, selfPayTx, selfPayGenesisTx, Transaction.IsCoinbase]
  have hf : (selfPayChain pk (HashPubKey P pk)).FindUTXOs P (HashPubKey P pk) =
      some [⟨25 / 2, HashPubKey P pk⟩, ⟨4, HashPubKey P pk⟩, ⟨17 / 2, HashPubKey P pk⟩,
        ⟨4, HashPubKey P pk⟩, ⟨17 / 2, HashPubKey P pk⟩] := by
    simp [BlockChain.FindUTXOs, BlockChain.FindUTXOTransactions, hy, selfPayBlock,
      selfPayGenesis, scanBlocks, scanTx, scanOutputs, scanInputs, GoMap.get, GoMap.set,
      selfPayRewardTx, selfPayTx, selfPayGenesisTx, Transaction.IsCoinbase, collectOutputs]
  refine ⟨?_, hu, hf, ?_, ?_⟩
  · rw [hy]
    refine ⟨?_, ?_, ?_, ?_⟩
    · simp [linked, selfPayBlock, selfPayGenesis]
    · simp [allTxs, selfPayBlock, selfPayGenesis, selfPayRewardTx, selfPayTx, selfPayGenesisTx]
    · simp [inputsResolve, resolvesIn, allTxs, selfPayBlock, selfPayGenesis, selfPayRewardTx,
        selfPayTx, selfPayGenesisTx, Transaction.IsCoinbase, Transaction.outputAt]
    · simp [allRefs, allTxs, refsOf, selfPayBlock, selfPayGenesis, selfPayRewardTx,
        selfPayTx, selfPayGenesisTx, Transaction.IsCoinbase]
  · rw [hu]
    norm_num [totalValue]
  · rw [hf]
    norm_num [totalValue]

/-- Second way `FindUTXOs` departs from the unspent outputs (see C1): after two
successive payments by the owner of `h`, the only unreferenced output locked to `h`
is the last change (7/2), but `FindUTXOs` also returns the genesis output (25/2),
which the first payment spent.  The scan leaves the first payment at its spent output
1 (`continue OUTPUT`) before recording that payment's own inputs. -/
theorem findUTXOs_returns_spent_output (P : Prims) (pk hB hC : Bytes)
    (hb : hB ≠ HashPubKey P pk) (hc : hC ≠ HashPubKey P pk) :
    WellFormed P (twoPayChain pk (HashPubKey P pk) hB hC).yielded ∧
    unspentOutputs (twoPayChain pk (HashPubKey P pk) hB hC).yielded (HashPubKey P pk) =
      [⟨7 / 2, HashPubKey P pk⟩] ∧
    (twoPayChain pk (HashPubKey P pk) hB hC).FindUTXOs P (HashPubKey P pk) =
      some [⟨7 / 2, HashPubKey P pk⟩, ⟨25 / 2, HashPubKey P pk⟩] := by
  have hy : (twoPayChain pk (HashPubKey P pk) hB hC).yielded =
      [⟨0, [11], [], 2, 16, 0, [12], [secondPayTx pk (HashPubKey P pk) hC]⟩,
        ⟨0, [10], [], 1, 16, 0, [11], [firstPayTx pk (HashPubKey P pk) hB]⟩,
        selfPayGenesis (HashPubKey P pk)] := by
    simp [BlockChain.yielded, BlockChain.walkFrom, twoPayChain, BlockChain.getBlock,
      selfPayGenesis]
  refine ⟨?_, ?_, ?_⟩
  · rw [hy]
    refine ⟨?_, ?_, ?_, ?_⟩
    · simp [linked, selfPayGenesis]
    · simp [allTxs, selfPayGenesis, selfPayGenesisTx, firstPayTx, secondPayTx]
    · simp [inputsResolve, resolvesIn, allTxs, selfPayGenesis, selfPayGenesisTx, firstPayTx,
        secondPayTx, Transaction.IsCoinbase, Transaction.outputAt]
    · simp [allRefs, allTxs, refsOf, selfPayGenesis, selfPayGenesisTx, firstPayTx, secondPayTx,
        Transaction.IsCoinbase]
  · rw [hy]
    simp [unspentOutputs, unspentOf, allRefs, allTxs, refsOf, selfPayGenesis, selfPayGenesisTx,
      firstPayTx, secondPayTx, Transaction.IsCoinbase, hb, hc]
  · simp [BlockChain.FindUTXOs, BlockChain.FindUTXOTransactions, hy, selfPayGenesis, scanBlocks,
      scanTx, scanOutputs, scanInputs, GoMap.get, GoMap.set, selfPayGenesisTx, firstPayTx,
      secondPayTx, Transaction.IsCoinbase, collectOutputs, hb, hc, Ne.symm hb, Ne.symm hc]

/-- The hypotheses of `findUTXOs_returns_spent_output` hold with the toy hashes. -/
theorem findUTXOs_returns_spent_output_toy :
    (twoPayChain [5, 5] (HashPubKey toyPrims [5, 5]) [6, 6] [7, 7]).FindUTXOs toyPrims
        (HashPubKey toyPrims [5, 5]) =
      some [⟨7 / 2, HashPubKey toyPrims [5, 5]⟩, ⟨25 / 2, HashPubKey toyPrims [5, 5]⟩] :=
  (findUTXOs_returns_spent_output toyPrims [5, 5] [6, 6] [7, 7] (by simp [HashPubKey, toyPrims])
    (by simp [HashPubKey, toyPrims])).2.2

/-- C2 (fails on the code).  `Verify` accepts a transaction whose input spends an
output locked to `owner` while carrying a public key `pk` that does not hash to
`owner`, as soon as the signature verifies under `pk` itself: the public key of an
input is never compared with the `PubKeyHash` of the output it spends. -/
theorem C2_verify_accepts_foreign_key (P : Prims) (owner pk sig dest : Bytes)
    (hsig : P.ecdsaVerify (splitHalves pk).1 (splitHalves pk).2
      (P.sha256 (P.gobEncode (spendTxCopy owner dest)))
      (splitHalves sig).1 (splitHalves sig).2 = true)
    (hne : HashPubKey P pk ≠ owner) :
    (spendTx pk sig dest).IsCoinbase = false ∧
    (spendTx pk sig dest).Verify P [([7], fundingTx [7] owner)] = some true ∧
    ∃ inp ∈ (spendTx pk sig dest).TXInputs, ∃ o,
      (GoMap.get zeroTransaction [([7], fundingTx [7] owner)] inp.Txid).outputAt inp.Index = some o ∧
      HashPubKey P inp.PubKey ≠ o.PubKeyHash := by
  refine ⟨by simp [spendTx, Transaction.IsCoinbase], ?_, ?_⟩
  · simp [Transaction.Verify, verifyLoop, spendTx, Transaction.IsCoinbase, GoMap.get, fundingTx,
      Transaction.outputAt, Transaction.TrimmedCopy, Transaction.setInputPubKey,
      Transaction.SetHash]
    simpa [spendTxCopy] using hsig
  · refine ⟨⟨[7], 0, sig, pk⟩, by simp [spendTx], ⟨25 / 2, owner⟩, ?_, by simpa using hne⟩
    simp [GoMap.get, fundingTx, Transaction.outputAt]

/-- Witness for C2 with the toy signature scheme: key `(5, 5)` spends an output
locked to `[9, 9, 9]`. -/
theorem C2_verify_accepts_foreign_key_witness :
    (spendTx [5, 5] [1, 95] [5, 5]).IsCoinbase = false ∧
    (spendTx [5, 5] [1, 95] [5, 5]).Verify toyPrims [([7], fundingTx [7] [9, 9, 9])] = some true ∧
    ∃ inp ∈ (spendTx [5, 5] [1, 95] [5, 5]).TXInputs, ∃ o,
      (GoMap.get zeroTransaction [([7], fundingTx [7] [9, 9, 9])] inp.Txid).outputAt inp.Index =
        some o ∧
      HashPubKey toyPrims inp.PubKey ≠ o.PubKeyHash :=
  C2_verify_accepts_foreign_key toyPrims [9, 9, 9] [5, 5] [1, 95] [5, 5]
    (by
      norm_num [toyPrims, toyVerify, splitHalves, bytesToNat, spendTxCopy, listTransaction,
        listInput, listOutput, listBytes])
    (by simp [HashPubKey, toyPrims])

/-- C3 (fails on the code).  For a transaction with two inputs whose referenced
outputs are locked to a non-empty `h`: `Sign` signs input 1 over the copy in which
input 0 has its `PubKey` cleared again, while `Verify` checks that signature against
the hash of the copy in which input 0 still carries `h`; the two copies differ. -/
theorem C3_verify_hashes_other_copy (P : Prims) (priv : Nat) (rand : Nat → Nat)
    (txid pk h dest : Bytes) (r0 s0 r1 s1 : Nat) (hh : h ≠ [])
    (h0 : P.ecdsaSign priv (rand 0) (P.sha256 (P.gobEncode (twoInputCopy txid h [] dest))) =
      some (r0, s0))
    (h1 : P.ecdsaSign priv (rand 1)
        (P.sha256 (P.gobEncode
          (twoInputCopy (P.sha256 (P.gobEncode (twoInputCopy txid h [] dest))) [] h dest))) =
      some (r1, s1)) :
    (twoInputTx txid pk [] [] dest).Sign P priv (twoInputPrevTXs h) rand =
      some (twoInputTx txid pk (encodeSignature r0 s0) (encodeSignature r1 s1) dest) ∧
    (twoInputTx txid pk (encodeSignature r0 s0) (encodeSignature r1 s1) dest).Verify P
        (twoInputPrevTXs h) =
      some
        (P.ecdsaVerify (splitHalves pk).1 (splitHalves pk).2
            (P.sha256 (P.gobEncode (twoInputCopy txid h [] dest)))
            (splitHalves (encodeSignature r0 s0)).1 (splitHalves (encodeSignature r0 s0)).2 &&
          P.ecdsaVerify (splitHalves pk).1 (splitHalves pk).2
            (P.sha256 (P.gobEncode
              (twoInputCopy (P.sha256 (P.gobEncode (twoInputCopy txid h [] dest))) h h dest)))
            (splitHalves (encodeSignature r1 s1)).1 (splitHalves (encodeSignature r1 s1)).2) ∧
    twoInputCopy (P.sha256 (P.gobEncode (twoInputCopy txid h [] dest))) h h dest ≠
      twoInputCopy (P.sha256 (P.gobEncode (twoInputCopy txid h [] dest))) [] h dest := by
  refine ⟨?_, ?_, ?_⟩
  · have h0' := h0
    have h1' := h1
    simp only [twoInputCopy] at h0' h1'
    simp [Transaction.Sign, signLoop, twoInputTx, Transaction.IsCoinbase, GoMap.get,
      twoInputPrevTXs, fundingTx, Transaction.outputAt, Transaction.TrimmedCopy,
      Transaction.setInputPubKey, Transaction.SetHash, Transaction.setInputSignature, h0', h1']
  · simp only [Transaction.Verify, verifyLoop, twoInputTx, Transaction.IsCoinbase, GoMap.get,
      twoInputPrevTXs, fundingTx, Transaction.outputAt, Transaction.TrimmedCopy,
      Transaction.setInputPubKey, Transaction.SetHash, twoInputCopy]
    simp
    cases P.ecdsaVerify (splitHalves pk).1 (splitHalves pk).2
        (P.sha256 (P.gobEncode ⟨txid, [⟨[7], 0, [], h⟩, ⟨[8], 0, [], []⟩], [⟨25, dest⟩]⟩))
        (splitHalves (encodeSignature r0 s0)).1 (splitHalves (encodeSignature r0 s0)).2 <;>
      cases P.ecdsaVerify (splitHalves pk).1 (splitHalves pk).2
        (P.sha256 (P.gobEncode
          ⟨P.sha256 (P.gobEncode ⟨txid, [⟨[7], 0, [], h⟩, ⟨[8], 0, [], []⟩], [⟨25, dest⟩]⟩),
            [⟨[7], 0, [], h⟩, ⟨[8], 0, [], h⟩], [⟨25, dest⟩]⟩))
        (splitHalves (encodeSignature r1 s1)).1 (splitHalves (encodeSignature r1 s1)).2 <;>
      simp
  · simp [twoInputCopy, hh]

/-- Witness for C3 with the toy signature scheme and key `(5, 5)`. -/
theorem C3_verify_hashes_other_copy_witness :
    (twoInputTx [3] [5, 5] [] [] [5, 5]).Sign toyPrims 5 (twoInputPrevTXs [5, 5]) (fun _ => 0) =
      some (twoInputTx [3] [5, 5] (encodeSignature 1 80) (encodeSignature 1 174) [5, 5]) ∧
    (twoInputTx [3] [5, 5] (encodeSignature 1 80) (encodeSignature 1 174) [5, 5]).Verify toyPrims
        (twoInputPrevTXs [5, 5]) =
      some
        (toyPrims.ecdsaVerify (splitHalves [5, 5]).1 (splitHalves [5, 5]).2
            (toyPrims.sha256 (toyPrims.gobEncode (twoInputCopy [3] [5, 5] [] [5, 5])))
            (splitHalves (encodeSignature 1 80)).1 (splitHalves (encodeSignature 1 80)).2 &&
          toyPrims.ecdsaVerify (splitHalves [5, 5]).1 (splitHalves [5, 5]).2
            (toyPrims.sha256 (toyPrims.gobEncode
              (twoInputCopy (toyPrims.sha256 (toyPrims.gobEncode (twoInputCopy [3] [5, 5] [] [5, 5])))
                [5, 5] [5, 5] [5, 5])))
            (splitHalves (encodeSignature 1 174)).1 (splitHalves (encodeSignature 1 174)).2) ∧
    twoInputCopy (toyPrims.sha256 (toyPrims.gobEncode (twoInputCopy [3] [5, 5] [] [5, 5])))
        [5, 5] [5, 5] [5, 5] ≠
      twoInputCopy (toyPrims.sha256 (toyPrims.gobEncode (twoInputCopy [3] [5, 5] [] [5, 5])))
        [] [5, 5] [5, 5] :=
  C3_verify_hashes_other_copy toyPrims 5 (fun _ => 0) [3] [5, 5] [5, 5] [5, 5] 1 80 1 174
    (by simp)
    (by
      norm_num [toyPrims, toySign, twoInputCopy, listTransaction, listInput, listOutput,
        listBytes])
    (by
      norm_num [toyPrims, toySign, twoInputCopy, listTransaction, listInput, listOutput,
        listBytes])

/-- With the toy signature scheme, the two-input transaction signed by `Sign` is
rejected by `Verify`, while the one-input transaction signed the same way is
accepted. -/
theorem toy_sign_then_verify :
    ((twoInputTx [3] [5, 5] [] [] [5, 5]).Sign toyPrims 5 (twoInputPrevTXs [5, 5])
        (fun _ => 0)).bind (fun t => t.Verify toyPrims (twoInputPrevTXs [5, 5])) = some false ∧
    ((spendTx [5, 5] [] [5, 5]).Sign toyPrims 5 [([7], fundingTx [7] [5, 5])]
        (fun _ => 0)).bind (fun t => t.Verify toyPrims [([7], fundingTx [7] [5, 5])]) =
      some true := by
  constructor
  · norm_num [Transaction.Sign, signLoop, Transaction.Verify, verifyLoop, twoInputTx,
      Transaction.IsCoinbase, GoMap.get, twoInputPrevTXs, fundingTx, Transaction.outputAt,
      Transaction.TrimmedCopy, Transaction.setInputPubKey, Transaction.SetHash,
      Transaction.setInputSignature, toyPrims, toySign, toyVerify, listTransaction, listInput,
      listOutput, listBytes, encodeSignature, natToBytes, splitHalves, bytesToNat]
  · norm_num [Transaction.Sign, signLoop, Transaction.Verify, verifyLoop, spendTx,
      Transaction.IsCoinbase, GoMap.get, fundingTx, Transaction.outputAt,
      Transaction.TrimmedCopy, Transaction.setInputPubKey, Transaction.SetHash,
      Transaction.setInputSignature, toyPrims, toySign, toyVerify, listTransaction, listInput,
      listOutput, listBytes, encodeSignature, natToBytes, splitHalves, bytesToNat]

/-! ### Byte strings and numbers -/

theorem foldl_bytes_eq (b : Bytes) (acc : Nat) :
    b.foldl (fun a x => a * 256 + x) acc = acc * 256 ^ b.length + Nat.ofDigits 256 b.reverse := by
  induction b generalizing acc with
  | nil => simp
  | cons x xs ih =>
    rw [List.foldl_cons, ih, List.reverse_cons, Nat.ofDigits_append, Nat.ofDigits_singleton,
      List.length_reverse, List.length_cons]
    ring

theorem bytesToNat_eq_ofDigits (b : Bytes) : bytesToNat b = Nat.ofDigits 256 b.reverse := by
  simp [bytesToNat, foldl_bytes_eq]

theorem bytesToNat_natToBytes (n : Nat) : bytesToNat (natToBytes n) = n := by
  simp [bytesToNat_eq_ofDigits, natToBytes, Nat.ofDigits_digits]

theorem bytesToNat_lt (b : Bytes) (hb : ∀ x ∈ b, x < 256) : bytesToNat b < 256 ^ b.length := by
  rw [bytesToNat_eq_ofDigits]
  have := Nat.ofDigits_lt_base_pow_length (b := 256) (l := b.reverse) (by norm_num)
    (by simpa using hb)
  simpa using this

theorem natToBytes_lt (n : Nat) : ∀ x ∈ natToBytes n, x < 256 := by
  intro x hx
  exact Nat.digits_lt_base (by norm_num) (by simpa [natToBytes] using hx)

/-- When `r` and `s` take the same number of bytes, the midpoint split recovers them. -/
theorem splitHalves_encodeSignature_of_length_eq (r s : Nat)
    (hlen : (natToBytes r).length = (natToBytes s).length) :
    splitHalves (encodeSignature r s) = (r, s) := by
  have hmid : (natToBytes r ++ natToBytes s).length / 2 = (natToBytes r).length := by
    rw [List.length_append, ← hlen]
    omega
  simp only [splitHalves, encodeSignature, hmid]
  rw [List.take_left', List.drop_left', bytesToNat_natToBytes, bytesToNat_natToBytes] <;> rfl

/-- C4 (fails on the code).  `Sign` stores `r.Bytes()` followed by `s.Bytes()` without
padding.  For a pair in the P-256 range in which `s` takes fewer bytes than `r`, the
first half that `Verify` cuts at the midpoint is a proper prefix of the bytes of `r`
and reads as a number smaller than `r`: the pair is not recovered. -/
theorem C4_midpoint_split_loses_r (r s : Nat) (hr : 1 ≤ r ∧ r < p256Order)
    (_hs : 1 ≤ s ∧ s < p256Order)
    (hlen : (natToBytes s).length < (natToBytes r).length) :
    (splitHalves (encodeSignature r s)).1 < r ∧ splitHalves (encodeSignature r s) ≠ (r, s) := by
  have hlt : (splitHalves (encodeSignature r s)).1 < r := by
    have hmid : (natToBytes r ++ natToBytes s).length / 2 ≤ (natToBytes r).length - 1 := by
      rw [List.length_append]
      omega
    have hmid' : (natToBytes r ++ natToBytes s).length / 2 ≤ (natToBytes r).length := by omega
    simp only [splitHalves, encodeSignature]
    rw [List.take_append_of_le_length hmid']
    have h1 := bytesToNat_lt ((natToBytes r).take ((natToBytes r ++ natToBytes s).length / 2))
      (fun x hx => natToBytes_lt r x (List.mem_of_mem_take hx))
    rw [List.length_take, Nat.min_eq_left hmid'] at h1
    have h2 : 256 ^ ((natToBytes r ++ natToBytes s).length / 2) ≤
        256 ^ ((natToBytes r).length - 1) := Nat.pow_le_pow_right (by norm_num) hmid
    have h3 : 256 ^ (natToBytes r).length ≤ 256 * r := by
      have := Nat.base_pow_length_digits_le 256 r (by norm_num) (by omega)
      simpa [natToBytes] using this
    have h4 : 256 ^ (natToBytes r).length = 256 * 256 ^ ((natToBytes r).length - 1) := by
      rw [← pow_succ']
      congr 1
      omega
    rw [h4] at h3
    have h5 : 256 ^ ((natToBytes r).length - 1) ≤ r := Nat.le_of_mul_le_mul_left h3 (by norm_num)
    omega
  refine ⟨hlt, ?_⟩
  intro heq
  rw [heq] at hlt
  exact Nat.lt_irrefl _ hlt

/-- Witness for C4: `r = 2^255` takes 32 bytes, `s = 2^240` takes 31. -/
theorem C4_midpoint_split_loses_r_witness :
    (splitHalves (encodeSignature (2 ^ 255) (2 ^ 240))).1 < 2 ^ 255 ∧
      splitHalves (encodeSignature (2 ^ 255) (2 ^ 240)) ≠ (2 ^ 255, 2 ^ 240) :=
  C4_midpoint_split_loses_r (2 ^ 255) (2 ^ 240) (by norm_num [p256Order])
    (by norm_num [p256Order]) (by norm_num [natToBytes])

/-- C5, as stated, fails: with a transaction whose `TXID` field holds `[1]`, the
identifier `SetHash` stores is not the hash of the encoding with the field emptied
(with the toy encoding and the identity for the hash). -/
theorem C5_setHash_reads_txid :
    ¬ ∀ (P : Prims) (tx : Transaction),
        (tx.SetHash P).TXID = P.sha256 (P.gobEncode { tx with TXID := [] }) := by
  intro h
  have := h toyPrims ⟨[1], [], []⟩
  simp [Transaction.SetHash, toyPrims, listTransaction, listBytes] at this

/-- C5, amended.  `SetHash` stores the SHA-256 of the encoding of the transaction as
it stands, `TXID` field included, and changes nothing else; on a transaction whose
`TXID` field is empty, as both constructors pass, that is the hash of the encoding
with the field emptied, a function of the inputs and outputs alone (so for the
coinbase constructor and for the transaction `NewTransaction` builds).  A second
`SetHash` hashes the encoding that holds the first identifier. -/
theorem C5_setHash_hashes_current_encoding (P : Prims) (tx : Transaction) :
    (tx.SetHash P).TXID = P.sha256 (P.gobEncode tx) ∧
    (tx.SetHash P).TXInputs = tx.TXInputs ∧ (tx.SetHash P).TXOutputs = tx.TXOutputs ∧
    (Transaction.SetHash P ⟨[], tx.TXInputs, tx.TXOutputs⟩).TXID =
      P.sha256 (P.gobEncode { tx with TXID := [] }) ∧
    ((tx.SetHash P).SetHash P).TXID =
      P.sha256 (P.gobEncode { tx with TXID := P.sha256 (P.gobEncode tx) }) ∧
    (∀ address data cb, NewCoinbaseTX P address data = some cb →
      cb.TXID = P.sha256 (P.gobEncode { cb with TXID := [] })) ∧
    (∀ pubKey utxos resValue amount pkhTo pkhFrom,
      (unsignedTransaction P pubKey utxos resValue amount pkhTo pkhFrom).TXID =
        P.sha256 (P.gobEncode
          { unsignedTransaction P pubKey utxos resValue amount pkhTo pkhFrom with TXID := [] })) := by
  refine ⟨rfl, rfl, rfl, rfl, rfl, ?_, ?_⟩
  · intro address data cb hcb
    unfold NewCoinbaseTX at hcb
    cases hout : NewTXOutput P reward address with
    | none => simp [hout] at hcb
    | some output =>
      simp [hout] at hcb
      subst hcb
      rfl
  · intro pubKey utxos resValue amount pkhTo pkhFrom
    rfl

/-! ### `AddBlock` -/

theorem verifyAll_eq_none_or (P : Prims) (bc : BlockChain) (txs : List Transaction)
    (hfail : ∃ tx ∈ txs, bc.VerifyTransaction P tx = some false) :
    bc.verifyAll P txs = some false ∨
      (bc.verifyAll P txs = none ∧ ∃ tx ∈ txs, bc.VerifyTransaction P tx = none) := by
  induction txs with
  | nil => simp at hfail
  | cons tx rest ih =>
    obtain ⟨t, ht, hv⟩ := hfail
    cases hres : bc.VerifyTransaction P tx with
    | none => right; exact ⟨by simp [BlockChain.verifyAll, hres], tx, by simp, hres⟩
    | some b =>
      cases b with
      | false => left; simp [BlockChain.verifyAll, hres]
      | true =>
        have htr : t ∈ rest := by
          rcases List.mem_cons.mp ht with h | h
          · subst h; rw [hres] at hv; simp at hv
          · exact h
        rcases ih ⟨t, htr, hv⟩ with h | ⟨h, t', ht', hn⟩
        · left; simp [BlockChain.verifyAll, hres, h]
        · right; exact ⟨by simp [BlockChain.verifyAll, hres, h], t', by simp [ht'], hn⟩

/-- C6.  When some transaction of `txs` fails `VerifyTransaction`, `AddBlock` writes
nothing: the state it returns is the state it was called on (block map,
`LastHashKey` entry and `tail`); it returns whenever no verification panics, and
otherwise the panic is raised by the verification loop, which precedes every write. -/
theorem C6_addBlock_rejects_unchanged (P : Prims) (bc : BlockChain) (txs : List Transaction)
    (hfail : ∃ tx ∈ txs, bc.VerifyTransaction P tx = some false) :
    (∀ bc', bc.AddBlock P txs = some bc' → bc' = bc) ∧
    ((∀ tx ∈ txs, bc.VerifyTransaction P tx ≠ none) → bc.AddBlock P txs = some bc) ∧
    (bc.AddBlock P txs = none → bc.verifyAll P txs = none ∧
      ∃ tx ∈ txs, bc.VerifyTransaction P tx = none) := by
  rcases verifyAll_eq_none_or P bc txs hfail with h | ⟨h, t, ht, hn⟩
  · refine ⟨?_, ?_, ?_⟩
    · intro bc' hb
      simp [BlockChain.AddBlock, h] at hb
      exact hb.symm
    · intro _
      simp [BlockChain.AddBlock, h]
    · intro hb
      simp [BlockChain.AddBlock, h] at hb
  · refine ⟨?_, ?_, ?_⟩
    · intro bc' hb
      simp [BlockChain.AddBlock, h] at hb
    · intro hall
      exact absurd hn (hall t ht)
    · intro _
      exact ⟨h, t, ht, hn⟩

/-- Witness for C6: a coinbase followed by a transfer with a wrong signature. -/
theorem C6_addBlock_rejects_unchanged_witness :
    (∀ bc', (fundedChain [5, 5]).AddBlock toyPrims
        [fundingTx [2] [5, 5], spendTx [5, 5] [1, 78] [5, 5]] = some bc' →
      bc' = fundedChain [5, 5]) ∧
    ((∀ tx ∈ [fundingTx [2] [5, 5], spendTx [5, 5] [1, 78] [5, 5]],
        (fundedChain [5, 5]).VerifyTransaction toyPrims tx ≠ none) →
      (fundedChain [5, 5]).AddBlock toyPrims
        [fundingTx [2] [5, 5], spendTx [5, 5] [1, 78] [5, 5]] = some (fundedChain [5, 5])) ∧
    ((fundedChain [5, 5]).AddBlock toyPrims
        [fundingTx [2] [5, 5], spendTx [5, 5] [1, 78] [5, 5]] = none →
      (fundedChain [5, 5]).verifyAll toyPrims
        [fundingTx [2] [5, 5], spendTx [5, 5] [1, 78] [5, 5]] = none ∧
      ∃ tx ∈ [fundingTx [2] [5, 5], spendTx [5, 5] [1, 78] [5, 5]],
        (fundedChain [5, 5]).VerifyTransaction toyPrims tx = none) :=
  C6_addBlock_rejects_unchanged toyPrims (fundedChain [5, 5])
    [fundingTx [2] [5, 5], spendTx [5, 5] [1, 78] [5, 5]]
    ⟨spendTx [5, 5] [1, 78] [5, 5], by simp, by
      norm_num [BlockChain.VerifyTransaction, BlockChain.collectPrevTXs,
        BlockChain.FindTransactionByTXid, BlockChain.yielded, BlockChain.walkFrom,
        BlockChain.getBlock, findTxLoop, fundedChain, Transaction.Verify, verifyLoop, spendTx,
        Transaction.IsCoinbase, GoMap.get, GoMap.set, fundingTx, Transaction.outputAt,
        Transaction.TrimmedCopy, Transaction.setInputPubKey, Transaction.SetHash, toyPrims,
        toyVerify, listTransaction, listInput, listOutput, listBytes, splitHalves, bytesToNat]⟩

/-- Halves of integers below `2 ^ 53` in magnitude are `float64` values. -/
theorem isFloat64_half (m : ℤ) (hm : |m| < 2 ^ 53) : IsFloat64 ((m : ℚ) / 2) :=
  ⟨m, -1, hm, by norm_num, by norm_num, by rw [zpow_neg_one]; rfl⟩

/-- A `float64` sum whose exact value is a half of a small integer is exact. -/
theorem addFloat64_of_half (P : Prims) (a b : ℚ) (m : ℤ) (hm : |m| < 2 ^ 53)
    (h : a + b = (m : ℚ) / 2) : P.addFloat64 a b = a + b :=
  P.addFloat64_exact a b (h ▸ isFloat64_half m hm)

/-- A `float64` difference whose exact value is a half of a small integer is exact. -/
theorem subFloat64_of_half (P : Prims) (a b : ℚ) (m : ℤ) (hm : |m| < 2 ^ 53)
    (h : a - b = (m : ℚ) / 2) : P.subFloat64 a b = a - b :=
  P.subFloat64_exact a b (h ▸ isFloat64_half m hm)

theorem isFloat64_neg (q : ℚ) (h : IsFloat64 q) : IsFloat64 (-q) := by
  obtain ⟨m, e, hm, he1, he2, hq⟩ := h
  exact ⟨-m, e, by simpa using hm, he1, he2, by rw [hq]; push_cast; ring⟩

/-! ### `FindTransactionByTXid` -/

theorem walkFrom_open (bc : BlockChain) (n : Nat) (cur : Bytes) :
    ∀ b ∈ (bc.walkFrom n cur).dropLast, b.PrevHash.length ≠ 0 := by
  induction n generalizing cur with
  | zero => simp [BlockChain.walkFrom]
  | succ n ih =>
    intro b hb
    simp only [BlockChain.walkFrom] at hb
    cases hg : bc.getBlock cur with
    | none => simp [hg] at hb
    | some b0 =>
      simp only [hg] at hb
      by_cases h0 : b0.PrevHash.length = 0
      · simp [h0] at hb
      · simp only [h0, if_false] at hb
        cases hw : bc.walkFrom n b0.PrevHash with
        | nil => simp [hw] at hb
        | cons b1 rest =>
          rw [hw, List.dropLast_cons₂] at hb
          rcases List.mem_cons.mp hb with h | h
          · rw [h]; exact h0
          · exact ih b0.PrevHash b (by rw [hw]; exact h)

theorem findTxLoop_of_walk (id : Bytes) (l : List Block)
    (hopen : ∀ b ∈ l.dropLast, b.PrevHash.length ≠ 0)
    (hlast : ∃ b, l.getLast? = some b ∧ b.PrevHash.length = 0) :
    findTxLoop id l = some ((allTxs l).find? (fun tx => tx.TXID = id)) := by
  induction l with
  | nil => simp at hlast
  | cons b rest ih =>
    cases rest with
    | nil =>
      obtain ⟨b', hb', h0⟩ := hlast
      simp at hb'
      subst hb'
      cases hf : b.Transactions.find? (fun tx => tx.TXID = id) with
      | none => simp [findTxLoop, allTxs, hf, h0]
      | some tx => simp [findTxLoop, allTxs, hf]
    | cons b1 rest' =>
      have hb : b.PrevHash.length ≠ 0 := hopen b (by simp [List.dropLast_cons₂])
      have ih' := ih (fun x hx => hopen x (by simp [List.dropLast_cons₂, hx]))
        (by simpa [List.getLast?_cons_cons] using hlast)
      have hall : allTxs (b :: b1 :: rest') = b.Transactions ++ allTxs (b1 :: rest') := by
        simp [allTxs]
      cases hf : b.Transactions.find? (fun tx => tx.TXID = id) with
      | none =>
        have hstep : findTxLoop id (b :: b1 :: rest') = findTxLoop id (b1 :: rest') := by
          rw [findTxLoop]
          simp only [hf, hb, if_false]
        rw [hstep, ih', hall, List.find?_append, hf]
        simp
      | some tx =>
        have hstep : findTxLoop id (b :: b1 :: rest') = some (some tx) := by
          rw [findTxLoop]
          simp only [hf]
        rw [hstep, hall, List.find?_append, hf]
        simp

/-- On any store, a transaction that is the first with the given id among the
blocks of the walk is returned, whether or not the walk goes on to a genesis block. -/
theorem findTransactionByTXid_of_found (bc : BlockChain) (id : Bytes) (tx : Transaction)
    (hfound : (allTxs bc.yielded).find? (fun t => t.TXID = id) = some tx) :
    bc.FindTransactionByTXid id = some (some tx) := by
  have key : ∀ l : List Block, (∀ b ∈ l.dropLast, b.PrevHash.length ≠ 0) →
      (allTxs l).find? (fun t => t.TXID = id) = some tx → findTxLoop id l = some (some tx) := by
    intro l
    induction l with
    | nil => intro _ h; simp [allTxs] at h
    | cons b rest ih =>
      intro hopen h
      have hall : allTxs (b :: rest) = b.Transactions ++ allTxs rest := by simp [allTxs]
      rw [hall, List.find?_append] at h
      cases hf : b.Transactions.find? (fun t => t.TXID = id) with
      | some t =>
        rw [hf] at h
        simp at h
        subst h
        rw [findTxLoop]
        simp only [hf]
      | none =>
        rw [hf] at h
        simp only [Option.none_or] at h
        cases rest with
        | nil => simp [allTxs] at h
        | cons b1 rest' =>
          have hb : b.PrevHash.length ≠ 0 := hopen b (by simp [List.dropLast_cons₂])
          rw [findTxLoop]
          simp only [hf, hb, if_false]
          exact ih (fun x hx => hopen x (by simp [List.dropLast_cons₂, hx])) h
  exact key bc.yielded (walkFrom_open bc _ _) hfound

/-- C11.  On a store whose walk from the tip ends at a genesis block,
`FindTransactionByTXid` returns the first transaction with the given id met in the
walk (blocks newest first, transactions in block order), and returns the error
exactly when no transaction of a block of the walk has that id. -/
theorem C11_findTransactionByTXid_first_match (bc : BlockChain) (id : Bytes)
    (hgen : bc.reachesGenesis) :
    bc.FindTransactionByTXid id =
      some ((allTxs bc.yielded).find? (fun tx => tx.TXID = id)) ∧
    (bc.FindTransactionByTXid id = some none ↔
      ∀ b ∈ bc.yielded, ∀ tx ∈ b.Transactions, tx.TXID ≠ id) := by
  have heq : bc.FindTransactionByTXid id =
      some ((allTxs bc.yielded).find? (fun tx => tx.TXID = id)) :=
    findTxLoop_of_walk id bc.yielded (walkFrom_open bc _ _) hgen
  refine ⟨heq, ?_⟩
  rw [heq]
  simp only [Option.some.injEq, List.find?_eq_none, allTxs, List.mem_flatten, List.mem_map,
    decide_eq_true_eq]
  constructor
  · intro h b hb tx htx
    exact h tx ⟨b.Transactions, ⟨b, hb, rfl⟩, htx⟩
  · rintro h tx ⟨l, ⟨b, hb, rfl⟩, htx⟩
    exact h b hb tx htx

/-- Witness for C11: the one-block store and the id of its transaction. -/
theorem C11_findTransactionByTXid_first_match_witness :
    (fundedChain [5, 5]).FindTransactionByTXid [7] =
      some ((allTxs (fundedChain [5, 5]).yielded).find? (fun tx => tx.TXID = [7])) ∧
    ((fundedChain [5, 5]).FindTransactionByTXid [7] = some none ↔
      ∀ b ∈ (fundedChain [5, 5]).yielded, ∀ tx ∈ b.Transactions, tx.TXID ≠ [7]) :=
  C11_findTransactionByTXid_first_match (fundedChain [5, 5]) [7]
    ⟨⟨0, [], [7], 0, 16, 0, [1], [fundingTx [7] [5, 5]]⟩, by
      simp [BlockChain.yielded, BlockChain.walkFrom, BlockChain.getBlock, fundedChain], by simp⟩

/-! ### `FindNeedUTXOs` -/

theorem toy_findUTXOTransactions :
    (fundedChain [119, 119]).FindUTXOTransactions toyPrims [119, 119] =
      some [fundingTx [7] [119, 119]] := by
  norm_num [BlockChain.FindUTXOTransactions, BlockChain.yielded, BlockChain.walkFrom,
    BlockChain.getBlock, fundedChain, scanBlocks, scanTx, scanOutputs, scanInputs, GoMap.get,
    GoMap.set, fundingTx, Transaction.IsCoinbase]

theorem toy_findNeedUTXOs :
    (fundedChain [119, 119]).FindNeedUTXOs toyPrims (HashPubKey toyPrims [119, 119]) 5 =
      some ([([7], [0])], 25 / 2) := by
  have h : HashPubKey toyPrims [119, 119] = [119, 119] := by simp [HashPubKey, toyPrims]
  rw [h]
  simp only [BlockChain.FindNeedUTXOs, toy_findUTXOTransactions]
  norm_num [needTxs, needOutputs, fundingTx, GoMap.get, GoMap.set, toyPrims]

theorem scanBlocks_of_walk (P : Prims) (target : Bytes) (l : List Block) (st : ScanState)
    (hopen : ∀ b ∈ l.dropLast, b.PrevHash.length ≠ 0)
    (hlast : ∃ b, l.getLast? = some b ∧ b.PrevHash.length = 0) :
    scanBlocks P target l st = some (scanWalk P target l st) := by
  induction l generalizing st with
  | nil => simp at hlast
  | cons b rest ih =>
    cases rest with
    | nil =>
      obtain ⟨b', hb', h0⟩ := hlast
      simp at hb'
      subst hb'
      simp [scanBlocks, scanWalk, h0]
    | cons b1 rest' =>
      have hb : b.PrevHash.length ≠ 0 := hopen b (by simp [List.dropLast_cons₂])
      have ih' := ih (b.Transactions.foldl (scanTx P target) st)
        (fun x hx => hopen x (by simp [List.dropLast_cons₂, hx]))
        (by simpa [List.getLast?_cons_cons] using hlast)
      rw [scanBlocks]
      simp only [hb, if_false]
      rw [ih']
      simp [scanWalk]

/-- On a store whose walk from the tip ends at a genesis block the scan returns,
having visited every block of the walk. -/
theorem findUTXOTransactions_of_reachesGenesis (P : Prims) (bc : BlockChain) (h : Bytes)
    (hgen : bc.reachesGenesis) :
    bc.FindUTXOTransactions P h = some (scanWalk P h bc.yielded ⟨[], []⟩).txs := by
  simp [BlockChain.FindUTXOTransactions,
    scanBlocks_of_walk P h bc.yielded ⟨[], []⟩ (walkFrom_open bc _ _) hgen]

theorem needOutputs_eq_needFlat (P : Prims) (h : Bytes) (amount : ℚ) (txid : Bytes)
    (outs : List TXOutput) (i : Nat) (st : NeedState) :
    needOutputs P h amount txid outs i st = needFlat P amount (lockedIn h txid outs i) st := by
  induction outs generalizing i st with
  | nil => simp [needOutputs, lockedIn, needFlat]
  | cons o rest ih =>
    by_cases hm : h = o.PubKeyHash
    · subst hm
      by_cases hc : st.calcSum < amount
      · by_cases hr : P.addFloat64 st.calcSum o.Value ≥ amount
        · simp [needOutputs, lockedIn, needFlat, hc, hr]
        · simp [needOutputs, lockedIn, needFlat, hc, hr, ih]
      · simp [needOutputs, lockedIn, needFlat, hc, ih]
    · simp [needOutputs, lockedIn, hm, ih]

theorem needFlat_append (P : Prims) (amount : ℚ) (l1 l2 : List (Bytes × Nat × ℚ))
    (st : NeedState) :
    needFlat P amount (l1 ++ l2) st =
      if (needFlat P amount l1 st).2 then needFlat P amount l1 st
      else needFlat P amount l2 (needFlat P amount l1 st).1 := by
  induction l1 generalizing st with
  | nil => simp [needFlat]
  | cons e rest ih =>
    by_cases hc : st.calcSum < amount
    · by_cases hr : P.addFloat64 st.calcSum e.2.2 ≥ amount
      · simp [needFlat, hc, hr]
      · simp [needFlat, hc, hr, ih]
    · simp [needFlat, hc, ih]

theorem needTxs_eq_needFlat (P : Prims) (h : Bytes) (amount : ℚ) (txs : List Transaction)
    (st : NeedState) :
    needTxs P h amount txs st = (needFlat P amount (lockedOutputs h txs) st).1 := by
  induction txs generalizing st with
  | nil => simp [needTxs, lockedOutputs, needFlat]
  | cons tx rest ih =>
    have hrest : lockedOutputs h (tx :: rest) =
        lockedIn h tx.TXID tx.TXOutputs 0 ++ lockedOutputs h rest := by
      simp [lockedOutputs]
    rw [hrest, needFlat_append, needTxs, needOutputs_eq_needFlat]
    cases hres : needFlat P amount (lockedIn h tx.TXID tx.TXOutputs 0) st with
    | mk st1 b =>
      cases b with
      | true => simp
      | false => simp [ih]

theorem needFlat_of_reached (P : Prims) (amount : ℚ) (l : List (Bytes × Nat × ℚ))
    (st : NeedState) (hc : ¬ st.calcSum < amount) : needFlat P amount l st = (st, false) := by
  induction l with
  | nil => simp [needFlat]
  | cons e rest ih => simp [needFlat, hc, ih]

theorem needFlat_selects (P : Prims) (amount : ℚ) (l : List (Bytes × Nat × ℚ))
    (st : NeedState) :
    ∃ k, k ≤ l.length ∧
      (needFlat P amount l st).1 =
        ⟨recordPairs (l.take k) st.utxos, runningSum P st.calcSum (l.take k)⟩ ∧
      (∀ j, j < k → runningSum P st.calcSum (l.take j) < amount) ∧
      (k = l.length ∨ amount ≤ runningSum P st.calcSum (l.take k)) := by
  induction l generalizing st with
  | nil => exact ⟨0, by simp [needFlat, recordPairs, runningSum]⟩
  | cons e rest ih =>
    by_cases hc : st.calcSum < amount
    · by_cases hr : P.addFloat64 st.calcSum e.2.2 ≥ amount
      · refine ⟨1, by simp, ?_, ?_, ?_⟩
        · simp [needFlat, hc, hr, recordPairs, runningSum]
        · intro j hj
          have : j = 0 := by omega
          subst this
          simpa [runningSum] using hc
        · right
          simpa [runningSum] using hr
      · obtain ⟨k, hk, hres, hmin, hend⟩ := ih
          ⟨st.utxos.set e.1 (GoMap.get [] st.utxos e.1 ++ [e.2.1]),
            P.addFloat64 st.calcSum e.2.2⟩
        refine ⟨k + 1, by simpa using hk, ?_, ?_, ?_⟩
        · simp only [needFlat, hc, hr, if_true, if_false, hres]
          simp [recordPairs, runningSum]
        · intro j hj
          cases j with
          | zero => simpa [runningSum] using hc
          | succ j =>
            have := hmin j (by omega)
            simpa [runningSum] using this
        · rcases hend with h | h
          · left; simp [h]
          · right; simpa [runningSum] using h
    · refine ⟨0, by simp, ?_, ?_, ?_⟩
      · simp [needFlat_of_reached P amount (e :: rest) st hc, recordPairs, runningSum]
      · intro j hj
        omega
      · right
        simpa [runningSum] using not_lt.mp hc

theorem set_signature_core (l : List TXInput) (i : Nat) (inp : TXInput) (sig : Bytes)
    (h : l[i]? = some inp) :
    (l.set i { inp with Signature := sig }).map TXInput.core = l.map TXInput.core := by
  induction l generalizing i with
  | nil => simp
  | cons x xs ih =>
    cases i with
    | zero =>
      simp at h
      subst h
      simp [TXInput.core]
    | succ i =>
      simp at h
      simp [ih i h]

theorem setInputSignature_frame (tx : Transaction) (i : Nat) (sig : Bytes) :
    (tx.setInputSignature i sig).TXID = tx.TXID ∧
    (tx.setInputSignature i sig).TXOutputs = tx.TXOutputs ∧
    (tx.setInputSignature i sig).TXInputs.map TXInput.core = tx.TXInputs.map TXInput.core := by
  unfold Transaction.setInputSignature
  cases h : tx.TXInputs[i]? with
  | none => simp
  | some inp => simp [set_signature_core tx.TXInputs i inp sig h]

theorem signLoop_frame (P : Prims) (priv : Nat) (prevTXs : GoMap Transaction) (rand : Nat → Nat)
    (rest : List TXInput) (i : Nat) (tx txCopy tx' : Transaction)
    (h : signLoop P priv prevTXs rand rest i tx txCopy = some tx') :
    tx'.TXID = tx.TXID ∧ tx'.TXOutputs = tx.TXOutputs ∧
      tx'.TXInputs.map TXInput.core = tx.TXInputs.map TXInput.core := by
  induction rest generalizing i tx txCopy with
  | nil =>
    simp [signLoop] at h
    subst h
    simp
  | cons input rest ih =>
    simp only [signLoop] at h
    split at h
    · simp at h
    · split at h
      · simp at h
      · split at h
        · simp at h
        · obtain ⟨h1, h2, h3⟩ := ih _ _ _ h
          exact ⟨h1.trans (setInputSignature_frame tx i _).1,
            h2.trans (setInputSignature_frame tx i _).2.1,
            h3.trans (setInputSignature_frame tx i _).2.2⟩

theorem sign_frame (P : Prims) (tx tx' : Transaction) (priv : Nat)
    (prevTXs : GoMap Transaction) (rand : Nat → Nat) (h : tx.Sign P priv prevTXs rand = some tx') :
    tx'.TXID = tx.TXID ∧ tx'.TXOutputs = tx.TXOutputs ∧
      tx'.TXInputs.map TXInput.core = tx.TXInputs.map TXInput.core := by
  unfold Transaction.Sign at h
  split at h
  · simp at h
    subst h
    simp
  · exact signLoop_frame P priv prevTXs rand _ _ _ _ _ h

theorem signTransaction_frame (P : Prims) (bc : BlockChain) (tx tx' : Transaction) (priv : Nat)
    (rand : Nat → Nat) (h : bc.SignTransaction P tx priv rand = some tx') :
    tx'.TXID = tx.TXID ∧ tx'.TXOutputs = tx.TXOutputs ∧
      tx'.TXInputs.map TXInput.core = tx.TXInputs.map TXInput.core := by
  unfold BlockChain.SignTransaction at h
  split at h
  · simp at h
  · exact sign_frame P _ _ _ _ _ h

theorem buildInputs_core (pubKey : Bytes) (utxos : GoMap (List Nat)) :
    (buildInputs pubKey utxos).map TXInput.core =
      (selectedPairs utxos).map (fun p => (p.1, (p.2 : Int), pubKey)) := by
  induction utxos with
  | nil => simp [buildInputs, selectedPairs]
  | cons e rest ih =>
    simp only [buildInputs, selectedPairs, List.map_cons, List.flatten_cons, List.map_append] at ih ⊢
    rw [ih]
    simp [TXInput.core, Function.comp_def]

/-! ### `NewTransaction` -/

theorem getPubKeyFromAddress_eq_none (P : Prims) (address : String) :
    GetPubKeyFromAddress P address = none ↔ (P.base58Decode address).length < 5 := by
  simp [GetPubKeyFromAddress]

theorem rangeOrder_perm (P : Prims) (m : GoMap (List Nat)) : (rangeOrder P m).Perm m := by
  unfold rangeOrder
  have hpos : 0 < m.permutations.length := by
    rw [List.length_permutations]
    exact Nat.factorial_pos _
  have hlt : P.rangeChoice m % m.permutations.length < m.permutations.length :=
    Nat.mod_lt _ hpos
  rw [List.getD_eq_getElem _ _ hlt]
  exact List.mem_permutations.mp (List.getElem_mem hlt)

theorem rangeOrder_nil (P : Prims) : rangeOrder P [] = [] :=
  List.Perm.eq_nil (rangeOrder_perm P [])

theorem rangeOrder_toyPrims (m : GoMap (List Nat)) : rangeOrder toyPrims m = m := by
  simp [rangeOrder, toyPrims, List.permutations]

theorem selectedPairs_perm (m m' : GoMap (List Nat)) (h : m.Perm m') :
    (selectedPairs m).Perm (selectedPairs m') := by
  unfold selectedPairs
  exact List.Perm.flatten (List.Perm.map _ h)

theorem goMap_get_set {α : Type} (z : α) (m : GoMap α) (k k' : Bytes) (v : α) :
    GoMap.get z (m.set k v) k' = if k = k' then v else GoMap.get z m k' := by
  induction m with
  | nil => simp [GoMap.set, GoMap.get]
  | cons e rest ih =>
    obtain ⟨k0, v0⟩ := e
    by_cases h0 : k0 = k
    · subst h0
      by_cases h1 : k0 = k' <;> simp [GoMap.set, GoMap.get, h1]
    · by_cases h1 : k0 = k'
      · subst h1
        simp [GoMap.set, GoMap.get, h0, Ne.symm h0]
      · simp [GoMap.set, GoMap.get, h0, h1, ih]

theorem findTxLoop_txid (id : Bytes) (l : List Block) (tx : Transaction)
    (h : findTxLoop id l = some (some tx)) : tx.TXID = id := by
  induction l with
  | nil => simp [findTxLoop] at h
  | cons b rest ih =>
    rw [findTxLoop] at h
    cases hf : b.Transactions.find? (fun t => t.TXID = id) with
    | some t =>
      simp only [hf, Option.some.injEq] at h
      subst h
      simpa using List.find?_some hf
    | none =>
      simp only [hf] at h
      by_cases h0 : b.PrevHash.length = 0
      · simp [h0] at h
      · simp only [h0, if_false] at h
        exact ih h

theorem collectPrevTXs_get (bc : BlockChain) (inputs : List TXInput) (m : GoMap Transaction)
    (hfind : ∀ inp ∈ inputs, ∃ prev, bc.FindTransactionByTXid inp.Txid = some (some prev)) :
    ∃ m', bc.collectPrevTXs inputs m = some m' ∧
      ∀ k, GoMap.get zeroTransaction m' k =
        if k ∈ inputs.map (fun inp => inp.Txid) then bc.resolveTx k
        else GoMap.get zeroTransaction m k := by
  induction inputs generalizing m with
  | nil => exact ⟨m, rfl, by simp⟩
  | cons input rest ih =>
    obtain ⟨prev, hprev⟩ := hfind input (by simp)
    obtain ⟨m', hm', hget⟩ := ih (m.set input.Txid prev)
      (fun inp hinp => hfind inp (by simp [hinp]))
    refine ⟨m', by simp [BlockChain.collectPrevTXs, hprev, hm'], ?_⟩
    intro k
    rw [hget k, goMap_get_set]
    by_cases hk : k ∈ rest.map (fun inp => inp.Txid)
    · have hk' : k ∈ (input :: rest).map (fun inp => inp.Txid) := by
        simp only [List.map_cons, List.mem_cons]
        exact Or.inr hk
      simp only [hk, hk', if_true]
    · by_cases hi : input.Txid = k
      · subst hi
        simp [hk, BlockChain.resolveTx, hprev]
      · have hk' : k ∉ (input :: rest).map (fun inp => inp.Txid) := by
          simp only [List.map_cons, List.mem_cons, not_or]
          exact ⟨fun h => hi h.symm, hk⟩
        simp only [hk, hk', hi, if_false]

theorem signLoop_completes (P : Prims) (priv : Nat) (prevTXs : GoMap Transaction)
    (rand : Nat → Nat) (rest : List TXInput) (i : Nat) (tx txCopy : Transaction)
    (hsig : ∀ k d, P.ecdsaSign priv k d ≠ none)
    (hres : ∀ inp ∈ rest, (GoMap.get zeroTransaction prevTXs inp.Txid).TXID ≠ [] ∧
      ∃ o, (GoMap.get zeroTransaction prevTXs inp.Txid).outputAt inp.Index = some o) :
    ∃ tx', signLoop P priv prevTXs rand rest i tx txCopy = some tx' := by
  induction rest generalizing i tx txCopy with
  | nil => exact ⟨tx, rfl⟩
  | cons input rest ih =>
    obtain ⟨hid, o, ho⟩ := hres input (by simp)
    have hlen : (GoMap.get zeroTransaction prevTXs input.Txid).TXID.length ≠ 0 := by
      simpa using hid
    simp only [signLoop, hlen, if_false, ho]
    cases hs : P.ecdsaSign priv (rand i)
        (((txCopy.setInputPubKey i o.PubKeyHash).SetHash P).setInputPubKey i []).TXID with
    | none => exact absurd hs (hsig _ _)
    | some rs =>
      obtain ⟨r, s⟩ := rs
      exact ih _ _ _ (fun inp hinp => hres inp (by simp [hinp]))

/-- `SignTransaction` completes when signing reports no error and every input
references, under a non-empty id, a transaction of the chain that has an output at
the input's index. -/
theorem signTransaction_completes (P : Prims) (bc : BlockChain) (tx : Transaction) (priv : Nat)
    (rand : Nat → Nat) (hsig : ∀ k d, P.ecdsaSign priv k d ≠ none)
    (hres : ∀ inp ∈ tx.TXInputs, inp.Txid ≠ [] ∧
      ∃ prev, bc.FindTransactionByTXid inp.Txid = some (some prev) ∧
        ∃ o, prev.outputAt inp.Index = some o) :
    ∃ tx', bc.SignTransaction P tx priv rand = some tx' := by
  obtain ⟨m', hm', hget⟩ := collectPrevTXs_get bc tx.TXInputs []
    (fun inp hinp => ⟨(hres inp hinp).2.choose, (hres inp hinp).2.choose_spec.1⟩)
  simp only [BlockChain.SignTransaction, hm', Transaction.Sign]
  split
  · exact ⟨tx, rfl⟩
  · apply signLoop_completes P priv m' rand _ 0 tx tx.TrimmedCopy hsig
    intro inp hinp
    simp only [Transaction.TrimmedCopy, List.mem_map] at hinp
    obtain ⟨inp0, hinp0, rfl⟩ := hinp
    obtain ⟨hne, prev, hprev, o, ho⟩ := hres inp0 hinp0
    have hk : inp0.Txid ∈ tx.TXInputs.map (fun inp => inp.Txid) :=
      List.mem_map.mpr ⟨inp0, hinp0, rfl⟩
    have hg : GoMap.get zeroTransaction m' inp0.Txid = prev := by
      rw [hget inp0.Txid]
      simp [hk, BlockChain.resolveTx, hprev]
    have hid : prev.TXID = inp0.Txid := findTxLoop_txid _ _ _ hprev
    simp only [hg]
    exact ⟨by rw [hid]; exact hne, o, ho⟩

theorem signLoop_none_of_unresolved (P : Prims) (priv : Nat) (prevTXs : GoMap Transaction)
    (rand : Nat → Nat) (rest : List TXInput) (i : Nat) (tx txCopy : Transaction)
    (h : ∃ inp ∈ rest, (GoMap.get zeroTransaction prevTXs inp.Txid).TXID = [] ∨
      (GoMap.get zeroTransaction prevTXs inp.Txid).outputAt inp.Index = none) :
    signLoop P priv prevTXs rand rest i tx txCopy = none := by
  induction rest generalizing i tx txCopy with
  | nil => simp at h
  | cons input rest ih =>
    rw [signLoop]
    by_cases hlen : (GoMap.get zeroTransaction prevTXs input.Txid).TXID.length = 0
    · simp [hlen]
    · simp only [hlen, if_false]
      cases ho : (GoMap.get zeroTransaction prevTXs input.Txid).outputAt input.Index with
      | none => rfl
      | some out =>
        simp only []
        cases hs : P.ecdsaSign priv (rand i)
            (((txCopy.setInputPubKey i out.PubKeyHash).SetHash P).setInputPubKey i []).TXID with
        | none => rfl
        | some rs =>
          obtain ⟨r, s⟩ := rs
          simp only []
          apply ih
          obtain ⟨inp, hinp, hbad⟩ := h
          rcases List.mem_cons.mp hinp with rfl | hr
          · rcases hbad with hb | hb
            · exact absurd (by simp [hb]) hlen
            · rw [ho] at hb
              cases hb
          · exact ⟨inp, hr, hbad⟩

theorem collectPrevTXs_some (bc : BlockChain) (inputs : List TXInput) (m m' : GoMap Transaction)
    (h : bc.collectPrevTXs inputs m = some m') :
    ∀ inp ∈ inputs, ∃ prev, bc.FindTransactionByTXid inp.Txid = some (some prev) := by
  induction inputs generalizing m with
  | nil => simp
  | cons input rest ih =>
    intro inp hinp
    rw [BlockChain.collectPrevTXs] at h
    cases hf : bc.FindTransactionByTXid input.Txid with
    | none => simp [hf] at h
    | some r =>
      cases r with
      | none => simp [hf] at h
      | some prev =>
        simp only [hf] at h
        rcases List.mem_cons.mp hinp with rfl | hr
        · exact ⟨prev, hf⟩
        · exact ih _ h inp hr

/-- `SignTransaction` does not return on a non-coinbase transaction one of whose
inputs has an empty `Txid`, or references a transaction that has no output at the
input's index. -/
theorem signTransaction_none_of_unresolved (P : Prims) (bc : BlockChain) (tx : Transaction)
    (priv : Nat) (rand : Nat → Nat) (hnc : tx.IsCoinbase = false)
    (h : ∃ inp ∈ tx.TXInputs, inp.Txid = [] ∨
      ∀ prev, bc.FindTransactionByTXid inp.Txid = some (some prev) →
        prev.outputAt inp.Index = none) :
    bc.SignTransaction P tx priv rand = none := by
  unfold BlockChain.SignTransaction
  cases hm : bc.collectPrevTXs tx.TXInputs [] with
  | none => rfl
  | some m' =>
    have hfind := collectPrevTXs_some bc tx.TXInputs [] m' hm
    obtain ⟨m'', hm'', hget⟩ := collectPrevTXs_get bc tx.TXInputs [] hfind
    rw [hm] at hm''
    simp only [Option.some.injEq] at hm''
    subst hm''
    obtain ⟨inp, hinp, hbad⟩ := h
    obtain ⟨prev, hprev⟩ := hfind inp hinp
    have hk : inp.Txid ∈ tx.TXInputs.map (fun inp => inp.Txid) :=
      List.mem_map.mpr ⟨inp, hinp, rfl⟩
    have hg : GoMap.get zeroTransaction m' inp.Txid = prev := by
      rw [hget inp.Txid]
      simp [hk, BlockChain.resolveTx, hprev]
    have hid : prev.TXID = inp.Txid := findTxLoop_txid _ _ _ hprev
    simp only [Transaction.Sign, hnc]
    apply signLoop_none_of_unresolved
    refine ⟨⟨inp.Txid, inp.Index, [], []⟩, ?_, ?_⟩
    · simp only [Transaction.TrimmedCopy, List.mem_map]
      exact ⟨inp, hinp, rfl⟩
    · simp only [hg]
      rcases hbad with hb | hb
      · exact Or.inl (by rw [hid, hb])
      · exact Or.inr (hb prev hprev)

theorem buildInputs_index_nonneg (pubKey : Bytes) (utxos : GoMap (List Nat)) :
    ∀ inp ∈ buildInputs pubKey utxos, 0 ≤ inp.Index := by
  intro inp hinp
  have hc : inp.core ∈ (buildInputs pubKey utxos).map TXInput.core := List.mem_map_of_mem _ hinp
  rw [buildInputs_core] at hc
  obtain ⟨p, _, hp⟩ := List.mem_map.mp hc
  simp only [TXInput.core, Prod.mk.injEq] at hp
  rw [← hp.2.1]
  exact Int.natCast_nonneg _

theorem isCoinbase_false_of_index_nonneg (tx : Transaction)
    (h : ∀ inp ∈ tx.TXInputs, 0 ≤ inp.Index) : tx.IsCoinbase = false := by
  cases hin : tx.TXInputs with
  | nil => simp [Transaction.IsCoinbase, hin]
  | cons inp rest =>
    have h0 := h inp (by simp [hin])
    cases rest with
    | nil =>
      simp only [Transaction.IsCoinbase, hin]
      simp
      intro _
      omega
    | cons inp2 rest2 => simp [Transaction.IsCoinbase, hin]

theorem mem_selectedPairs_set (m : GoMap (List Nat)) (k : Bytes) (i : Nat) (p : Bytes × Nat)
    (hp : p ∈ selectedPairs (m.set k (GoMap.get [] m k ++ [i]))) :
    p ∈ selectedPairs m ∨ p = (k, i) := by
  induction m with
  | nil =>
    right
    simpa [selectedPairs, GoMap.set, GoMap.get] using hp
  | cons e rest ih =>
    obtain ⟨k0, v0⟩ := e
    by_cases h0 : k0 = k
    · subst h0
      simp only [GoMap.set, GoMap.get, if_true, selectedPairs, List.map_cons, List.flatten_cons,
        List.map_append, List.mem_append, List.mem_map, List.map_nil, List.mem_singleton,
        List.mem_cons, List.not_mem_nil, or_false] at hp ⊢
      rcases hp with (hp | hp) | hp
      · exact Or.inl (Or.inl hp)
      · exact Or.inr hp
      · exact Or.inl (Or.inr hp)
    · have hset : GoMap.set ((k0, v0) :: rest) k (GoMap.get [] ((k0, v0) :: rest) k ++ [i]) =
          (k0, v0) :: GoMap.set rest k (GoMap.get [] rest k ++ [i]) := by
        simp [GoMap.set, GoMap.get, h0]
      rw [hset] at hp
      have hcons : ∀ m' : GoMap (List Nat), selectedPairs ((k0, v0) :: m') =
          v0.map (fun (j : Nat) => (k0, j)) ++ selectedPairs m' := by
        intro m'
        simp [selectedPairs]
      rw [hcons, List.mem_append] at hp
      rw [hcons, List.mem_append]
      rcases hp with hp | hp
      · exact Or.inl (Or.inl hp)
      · rcases ih hp with h | h
        · exact Or.inl (Or.inr h)
        · exact Or.inr h

theorem mem_selectedPairs_recordPairs (sel : List (Bytes × Nat × ℚ)) (m : GoMap (List Nat))
    (p : Bytes × Nat) (hp : p ∈ selectedPairs (recordPairs sel m)) :
    p ∈ selectedPairs m ∨ ∃ e ∈ sel, p = (e.1, e.2.1) := by
  induction sel generalizing m with
  | nil => exact Or.inl (by simpa [recordPairs] using hp)
  | cons e rest ih =>
    have hrec : recordPairs (e :: rest) m =
        recordPairs rest (m.set e.1 (GoMap.get [] m e.1 ++ [e.2.1])) := by
      simp [recordPairs]
    rw [hrec] at hp
    rcases ih _ hp with h | ⟨e', he', h⟩
    · rcases mem_selectedPairs_set m e.1 e.2.1 p h with h' | h'
      · exact Or.inl h'
      · exact Or.inr ⟨e, by simp, h'⟩
    · exact Or.inr ⟨e', by simp [he'], h⟩

theorem mem_lockedIn (h txid : Bytes) (outs : List TXOutput) (i : Nat) (e : Bytes × Nat × ℚ)
    (he : e ∈ lockedIn h txid outs i) : e.1 = txid ∧ e.2.1 < i + outs.length := by
  induction outs generalizing i with
  | nil => simp [lockedIn] at he
  | cons o rest ih =>
    by_cases hm : h = o.PubKeyHash
    · simp only [lockedIn, hm, if_true, List.mem_cons] at he
      rcases he with rfl | he
      · exact ⟨rfl, by simp⟩
      · have := ih (i + 1) (by simpa [hm] using he)
        exact ⟨this.1, by simp only [List.length_cons]; omega⟩
    · simp only [lockedIn, hm, if_false] at he
      have := ih (i + 1) he
      exact ⟨this.1, by simp only [List.length_cons]; omega⟩

theorem mem_lockedOutputs (h : Bytes) (txs : List Transaction) (e : Bytes × Nat × ℚ)
    (he : e ∈ lockedOutputs h txs) :
    ∃ tx ∈ txs, e.1 = tx.TXID ∧ e.2.1 < tx.TXOutputs.length := by
  simp only [lockedOutputs, List.mem_flatten, List.mem_map] at he
  obtain ⟨l, ⟨tx, htx, rfl⟩, hel⟩ := he
  have := mem_lockedIn h tx.TXID tx.TXOutputs 0 e hel
  exact ⟨tx, htx, this.1, by simpa using this.2⟩

theorem scanOutputs_mem (target : Bytes) (spent : List Int) (tx : Transaction)
    (outs : List TXOutput) (i : Nat) (txs : List Transaction) (t : Transaction)
    (ht : t ∈ (scanOutputs target spent tx outs i txs).1) : t ∈ txs ∨ t = tx := by
  induction outs generalizing i txs with
  | nil => exact Or.inl (by simpa [scanOutputs] using ht)
  | cons o rest ih =>
    rw [scanOutputs] at ht
    by_cases hs : spent.contains (i : Int) = true
    · simp only [hs, if_true] at ht
      exact Or.inl ht
    · simp only [hs] at ht
      rcases ih _ _ ht with h | h
      · by_cases ho : o.PubKeyHash = target
        · simp only [ho, if_true, List.mem_append, List.mem_singleton] at h
          exact h
        · simp only [ho, if_false] at h
          exact Or.inl h
      · exact Or.inr h

theorem scanTx_mem (P : Prims) (target : Bytes) (st : ScanState) (tx t : Transaction)
    (ht : t ∈ (scanTx P target st tx).txs) : t ∈ st.txs ∨ t = tx := by
  have key := scanOutputs_mem target (GoMap.get [] st.spentOutputs tx.TXID) tx tx.TXOutputs 0
    st.txs t
  unfold scanTx at ht
  cases hres : scanOutputs target (GoMap.get [] st.spentOutputs tx.TXID) tx tx.TXOutputs 0
      st.txs with
  | mk txs b =>
    rw [hres] at ht key
    cases b with
    | false => exact key ht
    | true =>
      by_cases hc : tx.IsCoinbase = true
      · simp only [hc, Bool.not_true] at ht
        exact key ht
      · simp only [hc] at ht
        exact key ht

theorem scanWalk_mem (P : Prims) (target : Bytes) (blocks : List Block) (st : ScanState)
    (t : Transaction) (ht : t ∈ (scanWalk P target blocks st).txs) :
    t ∈ st.txs ∨ t ∈ allTxs blocks := by
  have inner : ∀ (l : List Transaction) (st : ScanState),
      t ∈ (l.foldl (scanTx P target) st).txs → t ∈ st.txs ∨ t ∈ l := by
    intro l
    induction l with
    | nil => intro st h; exact Or.inl (by simpa using h)
    | cons tx rest ih =>
      intro st h
      rw [List.foldl_cons] at h
      rcases ih _ h with h' | h'
      · rcases scanTx_mem P target st tx t h' with h'' | h''
        · exact Or.inl h''
        · exact Or.inr (by simp [h''])
      · exact Or.inr (by simp [h'])
  induction blocks generalizing st with
  | nil => exact Or.inl (by simpa [scanWalk] using ht)
  | cons b rest ih =>
    have hw : scanWalk P target (b :: rest) st =
        scanWalk P target rest (b.Transactions.foldl (scanTx P target) st) := by
      simp [scanWalk]
    rw [hw] at ht
    have hall : allTxs (b :: rest) = b.Transactions ++ allTxs rest := by simp [allTxs]
    rw [hall, List.mem_append]
    rcases ih _ ht with h | h
    · rcases inner _ _ h with h' | h'
      · exact Or.inl h'
      · exact Or.inr (Or.inl h')
    · exact Or.inr (Or.inr h)

theorem find_of_nodup_txid (l : List Transaction) (tx : Transaction) (hmem : tx ∈ l)
    (hnd : (l.map (fun t => t.TXID)).Nodup) :
    l.find? (fun t => t.TXID = tx.TXID) = some tx := by
  induction l with
  | nil => simp at hmem
  | cons t rest ih =>
    simp only [List.map_cons, List.nodup_cons, List.mem_map, not_exists, not_and] at hnd
    rcases List.mem_cons.mp hmem with rfl | hm
    · simp
    · have hne : t.TXID ≠ tx.TXID := fun h => hnd.1 tx hm h.symm
      rw [List.find?_cons_of_neg _ (by simpa using hne)]
      exact ih hm hnd.2

/-- On a chain whose transactions have distinct, non-empty ids, every pair
`FindNeedUTXOs` selects is resolved by `FindTransactionByTXid` to a transaction that
has the selected output. -/
theorem selection_resolves (P : Prims) (bc : BlockChain) (h : Bytes) (amount : ℚ)
    (utxos : GoMap (List Nat)) (sum : ℚ) (hgen : bc.reachesGenesis)
    (hids : ((allTxs bc.yielded).map (fun tx => tx.TXID)).Nodup)
    (hne : ∀ tx ∈ allTxs bc.yielded, tx.TXID ≠ [])
    (hneed : bc.FindNeedUTXOs P h amount = some (utxos, sum)) :
    ∀ p ∈ selectedPairs utxos, p.1 ≠ [] ∧
      ∃ prev, bc.FindTransactionByTXid p.1 = some (some prev) ∧
        p.2 < prev.TXOutputs.length := by
  have hscan := findUTXOTransactions_of_reachesGenesis P bc h hgen
  obtain ⟨k, _, hres, _, _⟩ :=
    needFlat_selects P amount (lockedOutputs h (scanWalk P h bc.yielded ⟨[], []⟩).txs) ⟨[], 0⟩
  have hval : bc.FindNeedUTXOs P h amount =
      some (recordPairs ((lockedOutputs h (scanWalk P h bc.yielded ⟨[], []⟩).txs).take k) [],
        runningSum P 0 ((lockedOutputs h (scanWalk P h bc.yielded ⟨[], []⟩).txs).take k)) := by
    simp only [BlockChain.FindNeedUTXOs, hscan, Option.map_some', needTxs_eq_needFlat, hres]
  rw [hval] at hneed
  simp only [Option.some.injEq, Prod.mk.injEq] at hneed
  intro p hp
  rw [← hneed.1] at hp
  rcases mem_selectedPairs_recordPairs _ _ p hp with h0 | ⟨e, he, rfl⟩
  · simp [selectedPairs] at h0
  · obtain ⟨tx, htx, hid, hlen⟩ := mem_lockedOutputs h _ e (List.mem_of_mem_take he)
    have hall : tx ∈ allTxs bc.yielded := by
      rcases scanWalk_mem P h bc.yielded ⟨[], []⟩ tx htx with h' | h'
      · simp at h'
      · exact h'
    refine ⟨by simpa [hid] using hne tx hall, tx, ?_, hlen⟩
    simp only [hid]
    exact findTransactionByTXid_of_found bc tx.TXID tx (find_of_nodup_txid _ tx hall hids)

theorem newTransaction_of_selected (P : Prims) (ws : List (String × Wallet)) (rand : Nat → Nat)
    (sender receiver : String) (amount : ℚ) (bc : BlockChain) (w : Wallet)
    (utxos : GoMap (List Nat)) (sum : ℚ) (hw : ws.lookup sender = some w)
    (hneed : bc.FindNeedUTXOs P (HashPubKey P w.PubKey) amount = some (utxos, sum))
    (hge : ¬ sum < amount) :
    NewTransaction P ws rand sender receiver amount bc =
      match GetPubKeyFromAddress P receiver with
      | none => none
      | some pkhTo =>
        if sum > amount then
          match GetPubKeyFromAddress P sender with
          | none => none
          | some pkhFrom =>
            (bc.SignTransaction P
              (unsignedTransaction P w.PubKey (rangeOrder P utxos) sum amount pkhTo pkhFrom)
              w.Private rand).map some
        else
          (bc.SignTransaction P
            (unsignedTransaction P w.PubKey (rangeOrder P utxos) sum amount pkhTo [])
            w.Private rand).map some := by
  simp only [NewTransaction, hw, hneed, hge, if_false, NewTXOutput]
  cases hto : GetPubKeyFromAddress P receiver with
  | none => simp
  | some pkhTo =>
    by_cases hgt : sum > amount
    · cases hfrom : GetPubKeyFromAddress P sender with
      | none => simp [hgt]
      | some pkhFrom => simp [hgt, unsignedTransaction, paymentOutputs]
    · simp [hgt, unsignedTransaction, paymentOutputs]

theorem toy_emptyTxid_findNeedUTXOs :
    (emptyTxidChain [119, 119]).FindNeedUTXOs toyPrims (HashPubKey toyPrims [119, 119]) 5 =
      some ([([], [0])], 25 / 2) := by
  norm_num [BlockChain.FindNeedUTXOs, BlockChain.FindUTXOTransactions, BlockChain.yielded,
    BlockChain.walkFrom, BlockChain.getBlock, emptyTxidChain, scanBlocks, scanTx, scanOutputs,
    scanInputs, GoMap.get, GoMap.set, fundingTx, Transaction.IsCoinbase, HashPubKey, toyPrims,
    needTxs, needOutputs]

theorem toy_twinTxid_findNeedUTXOs :
    (twinTxidChain [119, 119] [5, 5]).FindNeedUTXOs toyPrims (HashPubKey toyPrims [119, 119]) 5 =
      some ([([7], [1])], 25 / 2) := by
  norm_num [BlockChain.FindNeedUTXOs, BlockChain.FindUTXOTransactions, BlockChain.yielded,
    BlockChain.walkFrom, BlockChain.getBlock, twinTxidChain, scanBlocks, scanTx, scanOutputs,
    scanInputs, GoMap.get, GoMap.set, Transaction.IsCoinbase, HashPubKey, toyPrims,
    needTxs, needOutputs]

/-- C9, as stated, fails, in three ways; in each the wallet exists and the selected
sum 25/2 covers the amount 5, and `NewTransaction` returns neither `nil` nor a
transaction.  (1) The receiver address decodes to fewer than 5 bytes (slice bounds
panic in `GetPubKeyFromAddress`).  (2) Both addresses decode, but the selected
output belongs to a transaction with an empty `TXID` (`Sign` panics on the
reference).  (3) Both addresses decode, but the chain holds two transactions with
the id of the selected output, and the one `FindTransactionByTXid` returns has no
output of the selected number (index out of range in `Sign`). -/
theorem C9_newTransaction_panics_after_selection :
    toyWallets.lookup "Awwcccc" = some ⟨119, [119, 119]⟩ ∧
    ¬ ((25 / 2 : ℚ) < 5) ∧
    5 ≤ (toyPrims.base58Decode "Bzzcccc").length ∧
    5 ≤ (toyPrims.base58Decode "Awwcccc").length ∧
    ((fundedChain [119, 119]).FindNeedUTXOs toyPrims (HashPubKey toyPrims [119, 119]) 5 =
        some ([([7], [0])], 25 / 2) ∧
      (toyPrims.base58Decode "").length < 5 ∧
      NewTransaction toyPrims toyWallets (fun _ => 0) "Awwcccc" "" 5 (fundedChain [119, 119]) =
        none) ∧
    ((emptyTxidChain [119, 119]).FindNeedUTXOs toyPrims (HashPubKey toyPrims [119, 119]) 5 =
        some ([([], [0])], 25 / 2) ∧
      NewTransaction toyPrims toyWallets (fun _ => 0) "Awwcccc" "Bzzcccc" 5
          (emptyTxidChain [119, 119]) =
        none) ∧
    ((twinTxidChain [119, 119] [5, 5]).FindNeedUTXOs toyPrims (HashPubKey toyPrims [119, 119]) 5 =
        some ([([7], [1])], 25 / 2) ∧
      NewTransaction toyPrims toyWallets (fun _ => 0) "Awwcccc" "Bzzcccc" 5
          (twinTxidChain [119, 119] [5, 5]) =
        none) := by
  have hw : toyWallets.lookup "Awwcccc" = some ⟨119, [119, 119]⟩ := by
    simp [toyWallets, List.lookup]
  have hge : ¬ ((25 / 2 : ℚ) < 5) := by norm_num
  have hz : 'z'.toNat = 122 := by decide
  have hw' : 'w'.toNat = 119 := by decide
  refine ⟨hw, hge, by simp [toyPrims], by simp [toyPrims],
    ⟨toy_findNeedUTXOs, by simp [toyPrims], ?_⟩, ⟨toy_emptyTxid_findNeedUTXOs, ?_⟩,
    ⟨toy_twinTxid_findNeedUTXOs, ?_⟩⟩
  · rw [newTransaction_of_selected toyPrims toyWallets _ "Awwcccc" "" 5 _ _ _ _ hw
      toy_findNeedUTXOs hge]
    simp [GetPubKeyFromAddress, toyPrims]
  · rw [newTransaction_of_selected toyPrims toyWallets _ "Awwcccc" "Bzzcccc" 5 _ _ _ _ hw
      toy_emptyTxid_findNeedUTXOs hge, rangeOrder_toyPrims]
    norm_num [GetPubKeyFromAddress, toyPrims, unsignedTransaction, paymentOutputs, buildInputs,
      hz, hw', Transaction.SetHash, BlockChain.SignTransaction, BlockChain.collectPrevTXs,
      BlockChain.FindTransactionByTXid, BlockChain.yielded, BlockChain.walkFrom,
      BlockChain.getBlock, findTxLoop, emptyTxidChain, fundingTx, GoMap.set, GoMap.get,
      Transaction.Sign, signLoop, Transaction.IsCoinbase, Transaction.TrimmedCopy]
  · rw [newTransaction_of_selected toyPrims toyWallets _ "Awwcccc" "Bzzcccc" 5 _ _ _ _ hw
      toy_twinTxid_findNeedUTXOs hge, rangeOrder_toyPrims]
    norm_num [GetPubKeyFromAddress, toyPrims, unsignedTransaction, paymentOutputs, buildInputs,
      hz, hw', Transaction.SetHash, BlockChain.SignTransaction, BlockChain.collectPrevTXs,
      BlockChain.FindTransactionByTXid, BlockChain.yielded, BlockChain.walkFrom,
      BlockChain.getBlock, findTxLoop, twinTxidChain, GoMap.set, GoMap.get,
      Transaction.Sign, signLoop, Transaction.IsCoinbase, Transaction.TrimmedCopy,
      Transaction.outputAt]

/-- C9, amended.  `NewTransaction` returns `nil` exactly when the wallet map has no
wallet for the sender or the sum returned by `FindNeedUTXOs` is below the amount.
Otherwise, when the receiver address (and the sender address, if change is due)
decodes to at least 5 bytes: the outcome is that of `SignTransaction` on the
transaction built; a transaction returned has, in the order `range` visited the
selection, one input per selected pair carrying the wallet's `PubKey`, first output
`(amount, receiver)` and a second output `(sum - amount, sender)`, the difference
taken in `float64`, exactly when `sum > amount`; and a transaction is returned
whenever signing reports no error and every selected pair has a non-empty id under
which `FindTransactionByTXid` finds a transaction with an output of the selected
number, which is so on every chain that ends at a genesis block and whose
transactions have distinct, non-empty ids.  When one of the addresses decodes to
fewer than 5 bytes, when a selected pair has an empty id, or when the transaction
`FindTransactionByTXid` finds under its id has no output of the selected number, the
call does not return. -/
theorem C9_newTransaction_cases (P : Prims) (ws : List (String × Wallet)) (rand : Nat → Nat)
    (sender receiver : String) (amount : ℚ) (bc : BlockChain) :
    (NewTransaction P ws rand sender receiver amount bc = some none ↔
      (ws.lookup sender = none ∨
        ∃ w utxos sum, ws.lookup sender = some w ∧
          bc.FindNeedUTXOs P (HashPubKey P w.PubKey) amount = some (utxos, sum) ∧ sum < amount)) ∧
    (∀ w utxos sum, ws.lookup sender = some w →
      bc.FindNeedUTXOs P (HashPubKey P w.PubKey) amount = some (utxos, sum) → ¬ sum < amount →
      (∀ pkhTo pkhFrom, GetPubKeyFromAddress P receiver = some pkhTo →
        (sum > amount → GetPubKeyFromAddress P sender = some pkhFrom) →
        NewTransaction P ws rand sender receiver amount bc =
            (bc.SignTransaction P
              (unsignedTransaction P w.PubKey (rangeOrder P utxos) sum amount pkhTo pkhFrom)
              w.Private rand).map some ∧
          (∀ tx, NewTransaction P ws rand sender receiver amount bc = some (some tx) →
            (tx.TXInputs.map TXInput.core).Perm
                ((selectedPairs utxos).map (fun p => (p.1, (p.2 : Int), w.PubKey))) ∧
              tx.TXOutputs = paymentOutputs P sum amount pkhTo pkhFrom) ∧
          ((∀ k d, P.ecdsaSign w.Private k d ≠ none) →
            (∀ p ∈ selectedPairs utxos, p.1 ≠ [] ∧
              ∃ prev, bc.FindTransactionByTXid p.1 = some (some prev) ∧
                p.2 < prev.TXOutputs.length) →
            ∃ tx, NewTransaction P ws rand sender receiver amount bc = some (some tx)) ∧
          ((∀ k d, P.ecdsaSign w.Private k d ≠ none) →
            bc.reachesGenesis →
            ((allTxs bc.yielded).map (fun tx => tx.TXID)).Nodup →
            (∀ tx ∈ allTxs bc.yielded, tx.TXID ≠ []) →
            ∃ tx, NewTransaction P ws rand sender receiver amount bc = some (some tx))) ∧
      (((P.base58Decode receiver).length < 5 ∨
          (sum > amount ∧ (P.base58Decode sender).length < 5)) →
        NewTransaction P ws rand sender receiver amount bc = none) ∧
      ((∃ p ∈ selectedPairs utxos, p.1 = [] ∨
          ∀ prev, bc.FindTransactionByTXid p.1 = some (some prev) →
            ¬ p.2 < prev.TXOutputs.length) →
        NewTransaction P ws rand sender receiver amount bc = none)) := by
  constructor
  · cases hl : ws.lookup sender with
    | none => simp [NewTransaction, hl]
    | some w =>
      cases hn : bc.FindNeedUTXOs P (HashPubKey P w.PubKey) amount with
      | none => simp [NewTransaction, hl, hn]
      | some res =>
        obtain ⟨utxos, sum⟩ := res
        by_cases hlt : sum < amount
        · simp only [NewTransaction, hl, hn, hlt, if_true, true_iff]
          exact Or.inr ⟨w, utxos, sum, rfl, hn, hlt⟩
        · rw [newTransaction_of_selected P ws rand sender receiver amount bc w utxos sum hl hn hlt]
          constructor
          · intro h
            exfalso
            cases hto : GetPubKeyFromAddress P receiver with
            | none => simp [hto] at h
            | some pkhTo =>
              by_cases hgt : sum > amount
              · cases hfrom : GetPubKeyFromAddress P sender with
                | none => simp [hto, hgt, hfrom] at h
                | some pkhFrom => simp [hto, hgt, hfrom] at h
              · simp [hto, hgt] at h
          · rintro (h | ⟨w', utxos', sum', hw', hn', hlt'⟩)
            · simp at h
            · simp at hw'
              subst hw'
              rw [hn] at hn'
              simp at hn'
              rw [hn'.2] at hlt
              exact absurd hlt' hlt
  · intro w utxos sum hw hneed hge
    refine ⟨?_, ?_, ?_⟩
    · intro pkhTo pkhFrom hto hfrom
      have heq : NewTransaction P ws rand sender receiver amount bc =
          (bc.SignTransaction P
            (unsignedTransaction P w.PubKey (rangeOrder P utxos) sum amount pkhTo pkhFrom)
            w.Private rand).map some := by
        rw [newTransaction_of_selected P ws rand sender receiver amount bc w utxos sum hw hneed hge]
        by_cases hgt : sum > amount
        · simp [hto, hgt, hfrom hgt]
        · simp [hto, hgt, unsignedTransaction, paymentOutputs]
      have hret : (∀ k d, P.ecdsaSign w.Private k d ≠ none) →
          (∀ p ∈ selectedPairs utxos, p.1 ≠ [] ∧
            ∃ prev, bc.FindTransactionByTXid p.1 = some (some prev) ∧
              p.2 < prev.TXOutputs.length) →
          ∃ tx, NewTransaction P ws rand sender receiver amount bc = some (some tx) := by
        intro hsig hsel
        rw [heq]
        obtain ⟨tx', htx'⟩ := signTransaction_completes P bc
          (unsignedTransaction P w.PubKey (rangeOrder P utxos) sum amount pkhTo pkhFrom)
          w.Private rand hsig (by
            intro inp hinp
            have hcore : inp.core ∈ (selectedPairs (rangeOrder P utxos)).map
                (fun p => (p.1, (p.2 : Int), w.PubKey)) := by
              rw [← buildInputs_core]
              simp only [unsignedTransaction, Transaction.SetHash] at hinp
              exact List.mem_map_of_mem _ hinp
            obtain ⟨p, hp, hpe⟩ := List.mem_map.mp hcore
            have hp' : p ∈ selectedPairs utxos :=
              (List.Perm.mem_iff (selectedPairs_perm _ _ (rangeOrder_perm P utxos))).mp hp
            obtain ⟨hne, prev, hprev, hlt⟩ := hsel p hp'
            simp only [TXInput.core, Prod.mk.injEq] at hpe
            obtain ⟨h1, h2, _⟩ := hpe
            refine ⟨by rw [← h1]; exact hne, prev, by rw [← h1]; exact hprev, ?_⟩
            rw [← h2]
            simp [Transaction.outputAt, hlt])
        exact ⟨tx', by simp [htx']⟩
      refine ⟨heq, ?_, hret, fun hsig hgen hids hne =>
        hret hsig (selection_resolves P bc _ amount utxos sum hgen hids hne hneed)⟩
      intro tx htx
      rw [heq] at htx
      have hs : bc.SignTransaction P
          (unsignedTransaction P w.PubKey (rangeOrder P utxos) sum amount pkhTo pkhFrom)
          w.Private rand = some tx := by
        cases hsig : bc.SignTransaction P
            (unsignedTransaction P w.PubKey (rangeOrder P utxos) sum amount pkhTo pkhFrom)
            w.Private rand with
        | none => simp [hsig] at htx
        | some t =>
          simp [hsig] at htx
          rw [htx]
      obtain ⟨_, h2, h3⟩ := signTransaction_frame P bc _ tx _ _ hs
      refine ⟨?_, ?_⟩
      · rw [h3]
        have hb : (unsignedTransaction P w.PubKey (rangeOrder P utxos) sum amount pkhTo
            pkhFrom).TXInputs.map TXInput.core =
            (selectedPairs (rangeOrder P utxos)).map (fun p => (p.1, (p.2 : Int), w.PubKey)) := by
          simp [unsignedTransaction, Transaction.SetHash, buildInputs_core]
        rw [hb]
        exact List.Perm.map _ (selectedPairs_perm _ _ (rangeOrder_perm P utxos))
      · rw [h2]
        simp [unsignedTransaction, Transaction.SetHash]
    · intro hshort
      rw [newTransaction_of_selected P ws rand sender receiver amount bc w utxos sum hw hneed hge]
      rcases hshort with h | ⟨hgt, h⟩
      · rw [(getPubKeyFromAddress_eq_none P receiver).mpr h]
      · rw [(getPubKeyFromAddress_eq_none P sender).mpr h]
        cases GetPubKeyFromAddress P receiver <;> simp [hgt]
    · rintro ⟨p, hp, hbad⟩
      rw [newTransaction_of_selected P ws rand sender receiver amount bc w utxos sum hw hneed hge]
      have key : ∀ pkhTo pkhFrom, bc.SignTransaction P
          (unsignedTransaction P w.PubKey (rangeOrder P utxos) sum amount pkhTo pkhFrom)
          w.Private rand = none := by
        intro pkhTo pkhFrom
        apply signTransaction_none_of_unresolved
        · apply isCoinbase_false_of_index_nonneg
          intro inp hinp
          simp only [unsignedTransaction, Transaction.SetHash] at hinp
          exact buildInputs_index_nonneg _ _ inp hinp
        · have hp' : p ∈ selectedPairs (rangeOrder P utxos) :=
            (List.Perm.mem_iff (selectedPairs_perm _ _ (rangeOrder_perm P utxos))).mpr hp
          have hc : (p.1, (p.2 : Int), w.PubKey) ∈
              (buildInputs w.PubKey (rangeOrder P utxos)).map TXInput.core := by
            rw [buildInputs_core]
            exact List.mem_map.mpr ⟨p, hp', rfl⟩
          obtain ⟨inp, hinp, hcore⟩ := List.mem_map.mp hc
          simp only [TXInput.core, Prod.mk.injEq] at hcore
          refine ⟨inp, by simpa [unsignedTransaction, Transaction.SetHash] using hinp, ?_⟩
          rcases hbad with hb | hb
          · exact Or.inl (by rw [hcore.1]; exact hb)
          · right
            intro prev hprev
            rw [hcore.1] at hprev
            have hlen := hb prev hprev
            rw [hcore.2.1]
            simp only [Transaction.outputAt, Int.natCast_nonneg, if_true, Int.toNat_ofNat]
            exact List.getElem?_eq_none (by omega)
      cases GetPubKeyFromAddress P receiver with
      | none => rfl
      | some pkhTo =>
        by_cases hgt : sum > amount
        · cases GetPubKeyFromAddress P sender with
          | none => simp [hgt]
          | some pkhFrom => simp [hgt, key]
        · simp [hgt, key]

theorem toy_findTransactionByTXid :
    (fundedChain [119, 119]).FindTransactionByTXid [7] = some (some (fundingTx [7] [119, 119])) := by
  simp [BlockChain.FindTransactionByTXid, BlockChain.yielded, BlockChain.walkFrom,
    BlockChain.getBlock, findTxLoop, fundedChain, fundingTx]

/-- Witness for C9: the wallet of `Awwcccc` pays 5 out of the 25/2 it owns on a
chain of one block, and a transaction is returned. -/
theorem C9_newTransaction_cases_witness :
    ∃ tx, NewTransaction toyPrims toyWallets (fun _ => 0) "Awwcccc" "Bzzcccc" 5
      (fundedChain [119, 119]) = some (some tx) :=
  ((((C9_newTransaction_cases toyPrims toyWallets (fun _ => 0) "Awwcccc" "Bzzcccc" 5
      (fundedChain [119, 119])).2 ⟨119, [119, 119]⟩ [([7], [0])] (25 / 2)
      (by simp [toyWallets, List.lookup]) toy_findNeedUTXOs (by norm_num)).1
      [122, 122] [119, 119] (by simp [GetPubKeyFromAddress, toyPrims])
      (by intro _; simp [GetPubKeyFromAddress, toyPrims])).2.2.2)
    (by intro k d; simp [toyPrims, toySign])
    ⟨⟨0, [], [7], 0, 16, 0, [1], [fundingTx [7] [119, 119]]⟩, by
      simp [BlockChain.yielded, BlockChain.walkFrom, BlockChain.getBlock, fundedChain], by simp⟩
    (by simp [BlockChain.yielded, BlockChain.walkFrom, BlockChain.getBlock, fundedChain, allTxs])
    (by simp [BlockChain.yielded, BlockChain.walkFrom, BlockChain.getBlock, fundedChain, allTxs,
      fundingTx])

/-- With the toy instantiation the payment of the C9 witness is built, signed and
returned. -/
theorem toy_newTransaction :
    NewTransaction toyPrims toyWallets (fun _ => 0) "Awwcccc" "Bzzcccc" 5 (fundedChain [119, 119]) =
      some (some ⟨[0, 1, 1, 7, 0, 0, 0, 2, 119, 119, 2, 5, 0, 1, 2, 122, 122, 15, 0, 2, 2, 119, 119],
        [⟨[7], 0, [1, 133], [119, 119]⟩], [⟨5, [122, 122]⟩, ⟨15 / 2, [119, 119]⟩]⟩) := by
  rw [newTransaction_of_selected toyPrims toyWallets _ "Awwcccc" "Bzzcccc" 5 _ ⟨119, [119, 119]⟩
    [([7], [0])] (25 / 2) (by simp [toyWallets, List.lookup]) toy_findNeedUTXOs (by norm_num),
    rangeOrder_toyPrims]
  have hz : 'z'.toNat = 122 := by decide
  have hw : 'w'.toNat = 119 := by decide
  norm_num [GetPubKeyFromAddress, toyPrims, unsignedTransaction, paymentOutputs, buildInputs,
    hz, hw, Transaction.SetHash, BlockChain.SignTransaction, BlockChain.collectPrevTXs,
    BlockChain.FindTransactionByTXid, BlockChain.yielded, BlockChain.walkFrom,
    BlockChain.getBlock, findTxLoop, fundedChain, fundingTx, GoMap.set, GoMap.get,
    Transaction.Sign, signLoop, Transaction.IsCoinbase, Transaction.TrimmedCopy,
    Transaction.outputAt, Transaction.setInputPubKey, Transaction.setInputSignature, toySign,
    listTransaction, listInput, listOutput, listBytes, encodeSignature, natToBytes]

/-- C10 (fails on the code).  For a negative amount, with a wallet for the sender
and addresses that decode, `NewTransaction` selects nothing, passes the balance check
`0 < amount`, and returns a transaction with no input whose first output has the
negative value `amount` (the second, the "change", has the `float64` difference
`0 - amount`, which is `-amount` for an amount that is a `float64` value). -/
theorem C10_negative_amount_gives_negative_output (P : Prims) (ws : List (String × Wallet))
    (rand : Nat → Nat) (sender receiver : String) (amount : ℚ) (bc : BlockChain) (w : Wallet)
    (txs : List Transaction) (pkhTo pkhFrom : Bytes)
    (hw : ws.lookup sender = some w)
    (hscan : bc.FindUTXOTransactions P (HashPubKey P w.PubKey) = some txs)
    (hneg : amount < 0)
    (hto : GetPubKeyFromAddress P receiver = some pkhTo)
    (hfrom : GetPubKeyFromAddress P sender = some pkhFrom) :
    ∃ tx, NewTransaction P ws rand sender receiver amount bc = some (some tx) ∧
      tx.TXInputs = [] ∧
      tx.TXOutputs = [⟨amount, pkhTo⟩, ⟨P.subFloat64 0 amount, pkhFrom⟩] ∧
      (IsFloat64 amount → P.subFloat64 0 amount = 0 - amount) ∧
      ∃ o ∈ tx.TXOutputs, o.Value < 0 := by
  have hneed : bc.FindNeedUTXOs P (HashPubKey P w.PubKey) amount = some ([], 0) := by
    simp only [BlockChain.FindNeedUTXOs, hscan, Option.map_some', needTxs_eq_needFlat]
    rw [needFlat_of_reached P amount _ ⟨[], 0⟩ (by simpa using le_of_lt hneg)]
  have hge : ¬ (0 : ℚ) < amount := by simpa using le_of_lt hneg
  refine ⟨unsignedTransaction P w.PubKey [] 0 amount pkhTo pkhFrom, ?_, ?_, ?_, ?_, ?_⟩
  · rw [newTransaction_of_selected P ws rand sender receiver amount bc w [] 0 hw hneed hge,
      rangeOrder_nil]
    simp [hto, hfrom, hneg, BlockChain.SignTransaction, BlockChain.collectPrevTXs,
      unsignedTransaction, buildInputs, Transaction.SetHash, Transaction.Sign,
      Transaction.IsCoinbase, Transaction.TrimmedCopy, signLoop]
  · simp [unsignedTransaction, buildInputs, Transaction.SetHash]
  · simp [unsignedTransaction, paymentOutputs, Transaction.SetHash, hneg]
  · intro hfl
    exact P.subFloat64_exact 0 amount (by simpa using isFloat64_neg amount hfl)
  · exact ⟨⟨amount, pkhTo⟩, by simp [unsignedTransaction, paymentOutputs, Transaction.SetHash],
      hneg⟩

/-- Witness for C10: the wallet of `Awwcccc` "pays" -3 and the transaction returned
has the outputs `(-3, B)` and `(3, A)`. -/
theorem C10_negative_amount_gives_negative_output_witness :
    ∃ tx, NewTransaction toyPrims toyWallets (fun _ => 0) "Awwcccc" "Bzzcccc" (-3)
        (fundedChain [119, 119]) = some (some tx) ∧
      tx.TXInputs = [] ∧
      tx.TXOutputs = [⟨-3, [122, 122]⟩, ⟨3, [119, 119]⟩] ∧
      ∃ o ∈ tx.TXOutputs, o.Value < 0 := by
  obtain ⟨tx, h1, h2, h3, _, h5⟩ :=
    C10_negative_amount_gives_negative_output toyPrims toyWallets (fun _ => 0) "Awwcccc"
      "Bzzcccc" (-3) (fundedChain [119, 119]) ⟨119, [119, 119]⟩ [fundingTx [7] [119, 119]]
      [122, 122] [119, 119] (by simp [toyWallets, List.lookup])
      (by
        have h : HashPubKey toyPrims [119, 119] = [119, 119] := by simp [HashPubKey, toyPrims]
        rw [h]
        exact toy_findUTXOTransactions)
      (by norm_num) (by simp [GetPubKeyFromAddress, toyPrims])
      (by simp [GetPubKeyFromAddress, toyPrims])
  refine ⟨tx, h1, h2, ?_, h5⟩
  rw [h3]
  norm_num [toyPrims]

/-- For a non-negative amount every output of a transaction `NewTransaction` returns
is non-negative, given that the `float64` difference of a larger and a smaller value
is not negative: the first output carries the amount, the change is there only when
the selected sum exceeds it (see C10 for negative amounts). -/
theorem newTransaction_outputs_nonneg (P : Prims) (ws : List (String × Wallet))
    (rand : Nat → Nat) (sender receiver : String) (amount : ℚ) (bc : BlockChain)
    (tx : Transaction) (hamt : 0 ≤ amount)
    (hsub : ∀ a b, b < a → 0 ≤ P.subFloat64 a b)
    (h : NewTransaction P ws rand sender receiver amount bc = some (some tx)) :
    ∀ o ∈ tx.TXOutputs, 0 ≤ o.Value := by
  cases hl : ws.lookup sender with
  | none => simp [NewTransaction, hl] at h
  | some w =>
    cases hn : bc.FindNeedUTXOs P (HashPubKey P w.PubKey) amount with
    | none => simp [NewTransaction, hl, hn] at h
    | some res =>
      obtain ⟨utxos, sum⟩ := res
      by_cases hlt : sum < amount
      · simp [NewTransaction, hl, hn, hlt] at h
      · rw [newTransaction_of_selected P ws rand sender receiver amount bc w utxos sum hl hn hlt] at h
        have key : ∀ pkhTo pkhFrom,
            bc.SignTransaction P
              (unsignedTransaction P w.PubKey (rangeOrder P utxos) sum amount pkhTo pkhFrom)
              w.Private rand = some tx → ∀ o ∈ tx.TXOutputs, 0 ≤ o.Value := by
          intro pkhTo pkhFrom hs o ho
          obtain ⟨_, h2, _⟩ := signTransaction_frame P bc _ tx _ _ hs
          rw [h2] at ho
          by_cases hgt : sum > amount
          · simp [unsignedTransaction, Transaction.SetHash, paymentOutputs, hgt] at ho
            rcases ho with rfl | rfl
            · exact hamt
            · exact hsub _ _ hgt
          · simp [unsignedTransaction, Transaction.SetHash, paymentOutputs, hgt] at ho
            subst ho
            exact hamt
        cases hto : GetPubKeyFromAddress P receiver with
        | none => simp [hto] at h
        | some pkhTo =>
          by_cases hgt : sum > amount
          · cases hfrom : GetPubKeyFromAddress P sender with
            | none => simp [hto, hgt, hfrom] at h
            | some pkhFrom =>
              simp [hto, hgt, hfrom] at h
              exact key pkhTo pkhFrom h
          · simp [hto, hgt] at h
            exact key pkhTo [] h

/-! ### Coinbase -/

/-- C12, as stated, fails: the empty address decodes to no byte, and `NewCoinbaseTX`
on it does not return a coinbase: it does not return (slice bounds out of range in
`GetPubKeyFromAddress`). -/
theorem C12_newCoinbase_panics_on_short_address :
    addressPrims.base58Decode "" = [] ∧
    GetPubKeyFromAddress addressPrims "" = none ∧
    NewCoinbaseTX addressPrims "" [71] = none := by
  have hd : addressPrims.base58Decode "" = [] := by
    show base58Decode "" = []
    simp [base58Decode, natToBytes]
  refine ⟨hd, ?_, ?_⟩
  · simp [GetPubKeyFromAddress, hd]
  · simp [NewCoinbaseTX, NewTXOutput, GetPubKeyFromAddress, hd]

/-- C12, amended.  `IsCoinbase` holds exactly for a transaction with one input whose
`Txid` is empty and whose `Index` is -1.  For an address that decodes to at least 5
bytes and every `data`, `NewCoinbaseTX` returns a coinbase with the one input
`(empty, -1, nil, data)` and exactly one output, of value 12.5, locked to the
public-key hash `GetPubKeyFromAddress` reads from the address.  For an address that
decodes to fewer than 5 bytes it does not return. -/
theorem C12_isCoinbase_and_newCoinbase (P : Prims) (tx : Transaction) (address : String)
    (data : Bytes) :
    (tx.IsCoinbase = true ↔ ∃ inp, tx.TXInputs = [inp] ∧ inp.Txid = [] ∧ inp.Index = -1) ∧
    (5 ≤ (P.base58Decode address).length →
      ∃ cb pkh, NewCoinbaseTX P address data = some cb ∧ cb.IsCoinbase = true ∧
        GetPubKeyFromAddress P address = some pkh ∧
        cb.TXInputs = [⟨[], -1, [], data⟩] ∧ cb.TXOutputs = [⟨25 / 2, pkh⟩]) ∧
    ((P.base58Decode address).length < 5 → NewCoinbaseTX P address data = none) := by
  have hnew : NewCoinbaseTX P address data =
      (GetPubKeyFromAddress P address).map
        (fun pkh => Transaction.SetHash P ⟨[], [⟨[], -1, [], data⟩], [⟨25 / 2, pkh⟩]⟩) := by
    cases h : GetPubKeyFromAddress P address <;> simp [NewCoinbaseTX, NewTXOutput, h, reward]
  refine ⟨?_, ?_, ?_⟩
  · constructor
    · intro h
      cases hin : tx.TXInputs with
      | nil => simp [Transaction.IsCoinbase, hin] at h
      | cons inp rest =>
        cases rest with
        | nil =>
          simp [Transaction.IsCoinbase, hin] at h
          exact ⟨inp, rfl, h.1, h.2⟩
        | cons inp2 rest2 => simp [Transaction.IsCoinbase, hin] at h
    · rintro ⟨inp, hin, ht, hi⟩
      simp [Transaction.IsCoinbase, hin, ht, hi]
  · intro hlen
    have hg : GetPubKeyFromAddress P address =
        some (((P.base58Decode address).take ((P.base58Decode address).length - 4)).drop 1) := by
      simp [GetPubKeyFromAddress, hlen]
    refine ⟨_, _, by rw [hnew, hg]; rfl, ?_, hg, ?_, ?_⟩
    · simp [Transaction.SetHash, Transaction.IsCoinbase]
    · simp [Transaction.SetHash]
    · simp [Transaction.SetHash]
  · intro hlen
    rw [hnew, (getPubKeyFromAddress_eq_none P address).mpr hlen]
    rfl

/-- Witness for C12: the coinbase made for the address `Awwcccc` with data `[71]`. -/
theorem C12_isCoinbase_and_newCoinbase_witness :
    ∃ cb pkh, NewCoinbaseTX toyPrims "Awwcccc" [71] = some cb ∧ cb.IsCoinbase = true ∧
      GetPubKeyFromAddress toyPrims "Awwcccc" = some pkh ∧
      cb.TXInputs = [⟨[], -1, [], [71]⟩] ∧ cb.TXOutputs = [⟨25 / 2, pkh⟩] :=
  (C12_isCoinbase_and_newCoinbase toyPrims zeroTransaction "Awwcccc" [71]).2.1
    (by simp [toyPrims])

/-! ### Addresses -/

theorem checkSum_length (P : Prims) (hsha : ∀ b, (P.sha256 b).length = 32) (data : Bytes) :
    (CheckSum P data).length = 4 := by
  simp [CheckSum, hsha]

theorem isValidAddress_of_decode (P : Prims) (s : String) (payload : Bytes)
    (hlen : (CheckSum P payload).length = 4)
    (hd : P.base58Decode s = payload ++ CheckSum P payload) : IsValidAddress P s = true := by
  simp [IsValidAddress, hd, hlen]

theorem getPubKeyFromAddress_of_decode (P : Prims) (s : String) (v : Nat) (pkh sum : Bytes)
    (hlen : sum.length = 4) (hd : P.base58Decode s = [v] ++ pkh ++ sum) :
    GetPubKeyFromAddress P s = some pkh := by
  have h5 : 5 ≤ 1 + (pkh.length + 4) := by omega
  simp [GetPubKeyFromAddress, hd, hlen, h5]

/-- C13.  When SHA-256 returns 32 bytes and decoding undoes the encoding of the
address bytes, the address `NewAdress` makes for a public key is accepted by
`IsValidAddress`. -/
theorem C13_new_address_is_valid (P : Prims) (w : Wallet)
    (hsha : ∀ b, (P.sha256 b).length = 32)
    (hrt : P.base58Decode (P.base58Encode
        ([0] ++ HashPubKey P w.PubKey ++ CheckSum P ([0] ++ HashPubKey P w.PubKey))) =
      [0] ++ HashPubKey P w.PubKey ++ CheckSum P ([0] ++ HashPubKey P w.PubKey)) :
    IsValidAddress P (w.NewAdress P) = true :=
  isValidAddress_of_decode P _ ([0] ++ HashPubKey P w.PubKey) (checkSum_length P hsha _)
    (by simpa [Wallet.NewAdress] using hrt)

/-- C14.  Under the same conditions, `GetPubKeyFromAddress` on the address gives
back the hash of the public key. -/
theorem C14_pubKeyHash_of_new_address (P : Prims) (w : Wallet)
    (hsha : ∀ b, (P.sha256 b).length = 32)
    (hrt : P.base58Decode (P.base58Encode
        ([0] ++ HashPubKey P w.PubKey ++ CheckSum P ([0] ++ HashPubKey P w.PubKey))) =
      [0] ++ HashPubKey P w.PubKey ++ CheckSum P ([0] ++ HashPubKey P w.PubKey)) :
    GetPubKeyFromAddress P (w.NewAdress P) = some (HashPubKey P w.PubKey) :=
  getPubKeyFromAddress_of_decode P _ 0 _ _ (checkSum_length P hsha _)
    (by simpa [Wallet.NewAdress] using hrt)

theorem addressPrims_sha_length : ∀ b, (addressPrims.sha256 b).length = 32 := by
  intro b
  simp [addressPrims, fixedHash]

theorem sample_bytes :
    [0] ++ HashPubKey addressPrims [7] ++
        CheckSum addressPrims ([0] ++ HashPubKey addressPrims [7]) =
      sampleAddressBytes := by
  decide

theorem sample_encode :
    base58Encode sampleAddressBytes = "1e1jLtDvEetgp8hTzzAo5jM43AFBeLpJ3" := by
  have h1 : bytesToNat sampleAddressBytes =
      171639500576979552136134867040834628565298781684563902464 := by decide
  have h2 : (sampleAddressBytes.takeWhile (fun x => x = 0)).length = 1 := by decide
  have h3 : (Nat.digits 58 171639500576979552136134867040834628565298781684563902464).reverse =
      [37, 0, 42, 19, 51, 12, 53, 13, 37, 51, 39, 47, 7, 40, 26, 57, 57, 9, 46, 4, 42, 20, 3, 2,
        9, 14, 10, 37, 19, 47, 17, 2] := by norm_num
  unfold base58Encode
  rw [h1, h2, h3]
  decide

theorem sample_decode :
    base58Decode "1e1jLtDvEetgp8hTzzAo5jM43AFBeLpJ3" = sampleAddressBytes := by
  have h1 : ("1e1jLtDvEetgp8hTzzAo5jM43AFBeLpJ3".toList.all
      (fun c => base58Alphabet.contains c)) = true := by decide
  have h2 : ("1e1jLtDvEetgp8hTzzAo5jM43AFBeLpJ3".toList.takeWhile
      (fun c => c = '1')).length = 1 := by decide
  have h3 : "1e1jLtDvEetgp8hTzzAo5jM43AFBeLpJ3".toList.foldl
      (fun acc c => acc * 58 + base58Alphabet.indexOf c) 0 =
      171639500576979552136134867040834628565298781684563902464 := by decide
  have h4 : natToBytes 171639500576979552136134867040834628565298781684563902464 =
      [7, 0, 0, 0, 0, 0, 0, 0, 0, 0, 0, 0, 0, 0, 0, 0, 0, 0, 0, 0, 0, 7, 0, 0] := by
    norm_num [natToBytes]
  unfold base58Decode
  rw [h1, h2, h3, h4]
  decide

theorem sample_address :
    Wallet.NewAdress addressPrims ⟨1, [7]⟩ = "1e1jLtDvEetgp8hTzzAo5jM43AFBeLpJ3" := by
  have h : Wallet.NewAdress addressPrims ⟨1, [7]⟩ =
      base58Encode ([0] ++ HashPubKey addressPrims [7] ++
        CheckSum addressPrims ([0] ++ HashPubKey addressPrims [7])) := by
    simp [Wallet.NewAdress, addressPrims]
  rw [h, sample_bytes, sample_encode]

theorem addressPrims_decode_encode :
    addressPrims.base58Decode (addressPrims.base58Encode
        ([0] ++ HashPubKey addressPrims [7] ++
          CheckSum addressPrims ([0] ++ HashPubKey addressPrims [7]))) =
      [0] ++ HashPubKey addressPrims [7] ++
        CheckSum addressPrims ([0] ++ HashPubKey addressPrims [7]) := by
  rw [sample_bytes]
  show base58Decode (base58Encode sampleAddressBytes) = sampleAddressBytes
  rw [sample_encode, sample_decode]

/-- Witness for C13: the wallet with public key `[7]`. -/
theorem C13_new_address_is_valid_witness :
    IsValidAddress addressPrims (Wallet.NewAdress addressPrims ⟨1, [7]⟩) = true :=
  C13_new_address_is_valid addressPrims ⟨1, [7]⟩ addressPrims_sha_length
    addressPrims_decode_encode

/-- Witness for C14: the wallet with public key `[7]`. -/
theorem C14_pubKeyHash_of_new_address_witness :
    GetPubKeyFromAddress addressPrims (Wallet.NewAdress addressPrims ⟨1, [7]⟩) =
      some (HashPubKey addressPrims [7]) :=
  C14_pubKeyHash_of_new_address addressPrims ⟨1, [7]⟩ addressPrims_sha_length
    addressPrims_decode_encode

set_option maxRecDepth 1000000 in
set_option maxHeartbeats 4000000 in
/-- SHA-256 as written out here gives the digest of the standard for the empty
message. -/
theorem sha256_empty :
    sha256 [] =
      [227, 176, 196, 66, 152, 252, 28, 20, 154, 251, 244, 200, 153, 111, 185, 36,
       39, 174, 65, 228, 100, 155, 147, 76, 164, 149, 153, 27, 120, 82, 184, 85] := by
  decide

set_option maxRecDepth 1000000 in
set_option maxHeartbeats 4000000 in
/-- SHA-256 as written out here gives the digest of the standard for `abc`. -/
theorem sha256_abc :
    sha256 [97, 98, 99] =
      [186, 120, 22, 191, 143, 1, 207, 234, 65, 65, 64, 222, 93, 174, 34, 35,
       176, 3, 97, 163, 150, 23, 122, 156, 180, 16, 255, 97, 242, 0, 21, 173] := by
  decide

set_option maxRecDepth 1000000 in
set_option maxHeartbeats 4000000 in
/-- The first 4 bytes of the double SHA-256 of the empty message: `5d f6 e0 e2`. -/
theorem sha256_twice_empty : (sha256 (sha256 [])).take 4 = [93, 246, 224, 226] := by
  decide

/-- The checksum of the empty payload under SHA-256: `5d f6 e0 e2`. -/
theorem checkSum_empty_sha256 : CheckSum sha256Prims [] = [93, 246, 224, 226] := by
  have h : sha256Prims.sha256 = sha256 := rfl
  unfold CheckSum
  rw [h]
  exact sha256_twice_empty

/-- The Base58 string `3QJmnh` decodes to the 4 bytes `5d f6 e0 e2`. -/
theorem decode_checksum_string : sha256Prims.base58Decode "3QJmnh" = [93, 246, 224, 226] := by
  show base58Decode "3QJmnh" = [93, 246, 224, 226]
  have h1 : ("3QJmnh".toList.all (fun c => base58Alphabet.contains c)) = true := by decide
  have h2 : ("3QJmnh".toList.takeWhile (fun c => c = '1')).length = 0 := by decide
  have h3 : "3QJmnh".toList.foldl (fun acc c => acc * 58 + base58Alphabet.indexOf c) 0 =
      1576460514 := by decide
  unfold base58Decode
  rw [h1, h2, h3]
  norm_num [natToBytes]

/-- C15 (fails on the code).  A string that decodes to exactly the 4 bytes of the
checksum of the empty payload is accepted by `IsValidAddress` although fewer than 5
bytes were decoded, and `GetPubKeyFromAddress` does not return on the address so
validated (slice bounds out of range). -/
theorem C15_isValidAddress_accepts_four_bytes (P : Prims) (s : String)
    (hlen : (CheckSum P []).length = 4)
    (hdec : P.base58Decode s = CheckSum P []) :
    (P.base58Decode s).length < 5 ∧ IsValidAddress P s = true ∧
      GetPubKeyFromAddress P s = none := by
  have h4 : (P.base58Decode s).length = 4 := by rw [hdec, hlen]
  refine ⟨by omega, ?_, ?_⟩
  · exact isValidAddress_of_decode P s [] hlen (by simpa using hdec)
  · exact (getPubKeyFromAddress_eq_none P s).mpr (by omega)

/-- Witness for C15, with SHA-256 and Base58 as the code uses them: the string
`3QJmnh`. -/
theorem C15_isValidAddress_accepts_four_bytes_witness :
    sha256Prims.base58Decode "3QJmnh" = [93, 246, 224, 226] ∧
    CheckSum sha256Prims [] = [93, 246, 224, 226] ∧
    (sha256Prims.base58Decode "3QJmnh").length < 5 ∧
    IsValidAddress sha256Prims "3QJmnh" = true ∧
    GetPubKeyFromAddress sha256Prims "3QJmnh" = none :=
  ⟨decode_checksum_string, checkSum_empty_sha256,
    C15_isValidAddress_accepts_four_bytes sha256Prims "3QJmnh"
      (by rw [checkSum_empty_sha256]; rfl)
      (by rw [checkSum_empty_sha256]; exact decode_checksum_string)⟩

/-- What `IsValidAddress` computes: it holds exactly when the decoded address has at
least 4 bytes and its last 4 bytes are the checksum of the bytes before them; it is
false whenever fewer than 4 bytes are decoded. -/
theorem isValidAddress_iff (P : Prims) (s : String) :
    (IsValidAddress P s = true ↔
      4 ≤ (P.base58Decode s).length ∧
        (P.base58Decode s).drop ((P.base58Decode s).length - 4) =
          CheckSum P ((P.base58Decode s).take ((P.base58Decode s).length - 4))) ∧
    ((P.base58Decode s).length < 4 → IsValidAddress P s = false) := by
  constructor
  · by_cases h : (P.base58Decode s).length < 4
    · simp only [IsValidAddress, h, if_true]
      constructor
      · intro hf
        simp at hf
      · intro hf
        omega
    · simp only [IsValidAddress, h, if_false, decide_eq_true_eq]
      constructor
      · intro hf
        exact ⟨by omega, hf⟩
      · intro hf
        exact hf.2
  · intro h
    simp [IsValidAddress, h]

/-- With at least 5 decoded bytes the claim of C15 holds: `IsValidAddress` is the
checksum comparison, and `GetPubKeyFromAddress` returns. -/
theorem isValidAddress_of_five (P : Prims) (s : String) (h5 : 5 ≤ (P.base58Decode s).length) :
    (IsValidAddress P s = true ↔
      (P.base58Decode s).drop ((P.base58Decode s).length - 4) =
        CheckSum P ((P.base58Decode s).take ((P.base58Decode s).length - 4))) ∧
    ∃ pkh, GetPubKeyFromAddress P s = some pkh := by
  have h : ¬ (P.base58Decode s).length < 4 := by omega
  exact ⟨by simp [IsValidAddress, h], by simp [GetPubKeyFromAddress, h5]⟩

theorem base58Encode_zero_data (b : Bytes) :
    ∃ rest, (base58Encode (0 :: b)).data = '1' :: rest := by
  refine ⟨List.replicate (b.takeWhile (fun x => x = 0)).length '1' ++
    (Nat.digits 58 (bytesToNat (0 :: b))).reverse.map (fun d => base58Alphabet.getD d '1'), ?_⟩
  simp [base58Encode, List.replicate_succ]

theorem one_append_drop_one (a : String) (rest : List Char) (h : a.data = '1' :: rest) :
    "1" ++ a.drop 1 = a := by
  apply String.ext
  rw [String.data_append, String.drop_eq, h]
  rfl

/-- C16, as stated, fails: for the address of the wallet with public key `[7]`,
putting `1` in place of the first character gives the same address, and
`IsValidAddress` accepts it. -/
theorem C16_one_for_first_character_still_valid :
    Wallet.NewAdress addressPrims ⟨1, [7]⟩ = "1e1jLtDvEetgp8hTzzAo5jM43AFBeLpJ3" ∧
    "1" ++ (Wallet.NewAdress addressPrims ⟨1, [7]⟩).drop 1 = "1e1jLtDvEetgp8hTzzAo5jM43AFBeLpJ3" ∧
    IsValidAddress addressPrims ("1" ++ (Wallet.NewAdress addressPrims ⟨1, [7]⟩).drop 1) = true := by
  have h2 : "1" ++ ("1e1jLtDvEetgp8hTzzAo5jM43AFBeLpJ3" : String).drop 1 =
      "1e1jLtDvEetgp8hTzzAo5jM43AFBeLpJ3" := by decide
  refine ⟨sample_address, by rw [sample_address, h2], ?_⟩
  rw [sample_address, h2]
  exact isValidAddress_of_decode addressPrims _ ([0] ++ HashPubKey addressPrims [7])
    (checkSum_length addressPrims addressPrims_sha_length _)
    (by
      show base58Decode "1e1jLtDvEetgp8hTzzAo5jM43AFBeLpJ3" = _
      rw [sample_decode, sample_bytes])

/-- C16, amended.  With Base58 over the Bitcoin alphabet, 32-byte SHA-256 and
decoding that undoes the encoding of the address bytes: the address `NewAdress`
makes begins with `1` (the version byte 0), so putting `1` in place of its first
character leaves it unchanged, and `IsValidAddress` accepts both. -/
theorem C16_leading_one_kept (P : Prims) (w : Wallet)
    (henc : ∀ b, P.base58Encode b = base58Encode b)
    (hsha : ∀ b, (P.sha256 b).length = 32)
    (hrt : P.base58Decode (P.base58Encode
        ([0] ++ HashPubKey P w.PubKey ++ CheckSum P ([0] ++ HashPubKey P w.PubKey))) =
      [0] ++ HashPubKey P w.PubKey ++ CheckSum P ([0] ++ HashPubKey P w.PubKey)) :
    (∃ rest, (w.NewAdress P).data = '1' :: rest) ∧
    "1" ++ (w.NewAdress P).drop 1 = w.NewAdress P ∧
    IsValidAddress P ("1" ++ (w.NewAdress P).drop 1) = true ∧
    IsValidAddress P (w.NewAdress P) = true := by
  have hvalid : IsValidAddress P (w.NewAdress P) = true :=
    isValidAddress_of_decode P _ ([0] ++ HashPubKey P w.PubKey) (checkSum_length P hsha _)
      (by simpa [Wallet.NewAdress] using hrt)
  have hhead : ∃ rest, (w.NewAdress P).data = '1' :: rest := by
    have : w.NewAdress P =
        base58Encode (0 :: (HashPubKey P w.PubKey ++ CheckSum P ([0] ++ HashPubKey P w.PubKey))) := by
      simp [Wallet.NewAdress, henc]
    rw [this]
    exact base58Encode_zero_data _
  obtain ⟨rest, hrest⟩ := hhead
  have hsame := one_append_drop_one (w.NewAdress P) rest hrest
  exact ⟨⟨rest, hrest⟩, hsame, by rw [hsame]; exact hvalid, hvalid⟩

/-- Witness for C16: the wallet with public key `[7]`. -/
theorem C16_leading_one_kept_witness :
    (∃ rest, (Wallet.NewAdress addressPrims ⟨1, [7]⟩).data = '1' :: rest) ∧
    "1" ++ (Wallet.NewAdress addressPrims ⟨1, [7]⟩).drop 1 =
      Wallet.NewAdress addressPrims ⟨1, [7]⟩ ∧
    IsValidAddress addressPrims ("1" ++ (Wallet.NewAdress addressPrims ⟨1, [7]⟩).drop 1) = true ∧
    IsValidAddress addressPrims (Wallet.NewAdress addressPrims ⟨1, [7]⟩) = true :=
  C16_leading_one_kept addressPrims ⟨1, [7]⟩ (fun _ => rfl) addressPrims_sha_length
    addressPrims_decode_encode

/-! ### The scan once more -/

/-- C17 (fails on the code).  On a well-formed chain in which transaction `[3]` has
output 0 (spent by `[4]`) and output 1 (unreferenced), both locked to `h`: the scan
ends with only `([3], 0)` in the spent map and only the genesis transaction in the
result.  Transaction `[3]` is missing although its output 1 is locked to `h` and not
in the spent map; its own input, which references `([1], 0)` and is keyed by `h`, was
not recorded; and the genesis transaction is listed although `([1], 0)` is
referenced.  Meeting the spent output 0 made the scan leave transaction `[3]`. -/
theorem C17_spent_output_abandons_transaction (P : Prims) (pk hC : Bytes)
    (hc : hC ≠ HashPubKey P pk) :
    WellFormed P (splitChain pk (HashPubKey P pk) hC).yielded ∧
    scanBlocks P (HashPubKey P pk) (splitChain pk (HashPubKey P pk) hC).yielded ⟨[], []⟩ =
      some ⟨[selfPayGenesisTx (HashPubKey P pk)], [([3], [0])]⟩ ∧
    (splitChain pk (HashPubKey P pk) hC).FindUTXOTransactions P (HashPubKey P pk) =
      some [selfPayGenesisTx (HashPubKey P pk)] ∧
    splitTx pk (HashPubKey P pk) ∈ allTxs (splitChain pk (HashPubKey P pk) hC).yielded ∧
    (splitTx pk (HashPubKey P pk)).TXOutputs[1]? = some ⟨4, HashPubKey P pk⟩ ∧
    (1 : Int) ∉ GoMap.get [] [([3], [(0 : Int)])] (splitTx pk (HashPubKey P pk)).TXID ∧
    splitTx pk (HashPubKey P pk) ∉ [selfPayGenesisTx (HashPubKey P pk)] ∧
    (0 : Int) ∉ GoMap.get [] [([3], [(0 : Int)])] (selfPayGenesisTx (HashPubKey P pk)).TXID ∧
    ((selfPayGenesisTx (HashPubKey P pk)).TXID, (0 : Int)) ∈
      allRefs (splitChain pk (HashPubKey P pk) hC).yielded := by
  have hy : (splitChain pk (HashPubKey P pk) hC).yielded =
      [⟨0, [11], [], 2, 16, 0, [12], [spendSplitTx pk hC]⟩,
        ⟨0, [10], [], 1, 16, 0, [11], [splitTx pk (HashPubKey P pk)]⟩,
        selfPayGenesis (HashPubKey P pk)] := by
    simp [BlockChain.yielded, BlockChain.walkFrom, splitChain, BlockChain.getBlock,
      selfPayGenesis]
  have hscan : scanBlocks P (HashPubKey P pk) (splitChain pk (HashPubKey P pk) hC).yielded
      ⟨[], []⟩ = some ⟨[selfPayGenesisTx (HashPubKey P pk)], [([3], [0])]⟩ := by
    simp [hy, selfPayGenesis, scanBlocks, scanTx, scanOutputs, scanInputs, GoMap.get, GoMap.set,
      selfPayGenesisTx, splitTx, spendSplitTx, Transaction.IsCoinbase, hc]
  refine ⟨?_, hscan, ?_, ?_, ?_, ?_, ?_, ?_, ?_⟩
  · rw [hy]
    refine ⟨?_, ?_, ?_, ?_⟩
    · simp [linked, selfPayGenesis]
    · simp [allTxs, selfPayGenesis, selfPayGenesisTx, splitTx, spendSplitTx]
    · simp [inputsResolve, resolvesIn, allTxs, selfPayGenesis, selfPayGenesisTx, splitTx,
        spendSplitTx, Transaction.IsCoinbase, Transaction.outputAt]
    · simp [allRefs, allTxs, refsOf, selfPayGenesis, selfPayGenesisTx, splitTx, spendSplitTx,
        Transaction.IsCoinbase]
  · simp [BlockChain.FindUTXOTransactions, hscan]
  · rw [hy]
    simp [allTxs]
  · simp [splitTx]
  · simp [GoMap.get, splitTx]
  · simp [splitTx, selfPayGenesisTx]
  · simp [GoMap.get, selfPayGenesisTx]
  · rw [hy]
    simp [allRefs, allTxs, refsOf, selfPayGenesis, selfPayGenesisTx, splitTx, spendSplitTx,
      Transaction.IsCoinbase]

/-- Witness for C17 with the toy hashes: owner key `[5, 5]`, payee `[7, 7]`. -/
theorem C17_spent_output_abandons_transaction_witness :
    (splitChain [5, 5] (HashPubKey toyPrims [5, 5]) [7, 7]).FindUTXOTransactions toyPrims
        (HashPubKey toyPrims [5, 5]) =
      some [selfPayGenesisTx (HashPubKey toyPrims [5, 5])] :=
  (C17_spent_output_abandons_transaction toyPrims [5, 5] [7, 7]
    (by simp [HashPubKey, toyPrims])).2.2.1

/-- C18 (fails on the code).  On the chain left by `createBlockChain A; send A A 4`
and for the amount 30, `FindNeedUTXOs` returns output numbers `0, 1, 0, 1` for
transaction `[3]` and the sum 75/2: the pairs `([3], 0)` and `([3], 1)` are selected
twice each, and the inputs `NewTransaction` builds from the selection reference them
twice. -/
theorem C18_selection_repeats_pairs (P : Prims) (pk : Bytes) :
    WellFormed P (selfPayChain pk (HashPubKey P pk)).yielded ∧
    (selfPayChain pk (HashPubKey P pk)).FindNeedUTXOs P (HashPubKey P pk) 30 =
      some ([([2], [0]), ([3], [0, 1, 0, 1])], 75 / 2) ∧
    ¬ (selectedPairs [([2], [0]), ([3], [0, 1, 0, 1])]).Nodup ∧
    ¬ ((buildInputs pk [([2], [0]), ([3], [0, 1, 0, 1])]).map
        (fun inp => (inp.Txid, inp.Index))).Nodup := by
  have hy : (selfPayChain pk (HashPubKey P pk)).yielded =
      [selfPayBlock pk (HashPubKey P pk), selfPayGenesis (HashPubKey P pk)] := by
    simp [BlockChain.yielded, BlockChain.walkFrom, selfPayChain, BlockChain.getBlock,
      selfPayBlock, selfPayGenesis]
  refine ⟨?_, ?_, ?_, ?_⟩
  · rw [hy]
    refine ⟨?_, ?_, ?_, ?_⟩
    · simp [linked, selfPayBlock, selfPayGenesis]
    · simp [allTxs, selfPayBlock, selfPayGenesis, selfPayRewardTx, selfPayTx, selfPayGenesisTx]
    · simp [inputsResolve, resolvesIn, allTxs, selfPayBlock, selfPayGenesis, selfPayRewardTx,
        selfPayTx, selfPayGenesisTx, Transaction.IsCoinbase, Transaction.outputAt]
    · simp [allRefs, allTxs, refsOf, selfPayBlock, selfPayGenesis, selfPayRewardTx,
        selfPayTx, selfPayGenesisTx, Transaction.IsCoinbase]
  · have hscan : (selfPayChain pk (HashPubKey P pk)).FindUTXOTransactions P (HashPubKey P pk) =
        some [selfPayRewardTx (HashPubKey P pk), selfPayTx pk (HashPubKey P pk),
          selfPayTx pk (HashPubKey P pk)] := by
      simp [BlockChain.FindUTXOTransactions, hy, selfPayBlock, selfPayGenesis, scanBlocks,
        scanTx, scanOutputs, scanInputs, GoMap.get, GoMap.set, selfPayRewardTx, selfPayTx,
        selfPayGenesisTx, Transaction.IsCoinbase]
    have h1 : P.addFloat64 0 (25 / 2) = 25 / 2 := by
      rw [addFloat64_of_half P _ _ 25 (by norm_num) (by norm_num)]
      norm_num
    have h2 : P.addFloat64 (25 / 2) 4 = 33 / 2 := by
      rw [addFloat64_of_half P _ _ 33 (by norm_num) (by norm_num)]
      norm_num
    have h3 : P.addFloat64 (33 / 2) (17 / 2) = 25 := by
      rw [addFloat64_of_half P _ _ 50 (by norm_num) (by norm_num)]
      norm_num
    have h4 : P.addFloat64 25 4 = 29 := by
      rw [addFloat64_of_half P _ _ 58 (by norm_num) (by norm_num)]
      norm_num
    have h5 : P.addFloat64 29 (17 / 2) = 75 / 2 := by
      rw [addFloat64_of_half P _ _ 75 (by norm_num) (by norm_num)]
      norm_num
    simp only [BlockChain.FindNeedUTXOs, hscan, Option.map_some']
    norm_num [needTxs, needOutputs, selfPayRewardTx, selfPayTx, GoMap.get, GoMap.set, h1, h2, h3,
      h4, h5]
  · simp [selectedPairs]
  · simp [buildInputs]

/-! ### `Verify` and out-of-range indices -/

/-- C19, as stated, fails: the referenced transaction `[7]` has a non-empty `TXID`
and one output, and `Verify` does not return for an input with `Index` 5 nor for one
with `Index` -1 (index out of range). -/
theorem C19_verify_panics_on_bad_index :
    (indexTx 5).IsCoinbase = false ∧
    (GoMap.get zeroTransaction [([7], fundingTx [7] [5, 5])] [7]).TXID ≠ [] ∧
    (indexTx 5).Verify toyPrims [([7], fundingTx [7] [5, 5])] = none ∧
    (indexTx (-1)).IsCoinbase = false ∧
    (indexTx (-1)).Verify toyPrims [([7], fundingTx [7] [5, 5])] = none := by
  refine ⟨?_, ?_, ?_, ?_, ?_⟩
  · simp [indexTx, Transaction.IsCoinbase]
  · simp [GoMap.get, fundingTx]
  · simp [Transaction.Verify, verifyLoop, indexTx, Transaction.IsCoinbase, GoMap.get, fundingTx,
      Transaction.outputAt]
  · simp [indexTx, Transaction.IsCoinbase]
  · simp [Transaction.Verify, verifyLoop, indexTx, Transaction.IsCoinbase, GoMap.get, fundingTx,
      Transaction.outputAt]

theorem verifyLoop_returns (P : Prims) (prevTXs : GoMap Transaction) (rest : List TXInput)
    (i : Nat) (txCopy : Transaction)
    (hres : ∀ inp ∈ rest, (GoMap.get zeroTransaction prevTXs inp.Txid).TXID ≠ [] ∧
      ∃ o, (GoMap.get zeroTransaction prevTXs inp.Txid).outputAt inp.Index = some o) :
    ∃ b, verifyLoop P prevTXs rest i txCopy = some b := by
  induction rest generalizing i txCopy with
  | nil => exact ⟨true, rfl⟩
  | cons input rest ih =>
    obtain ⟨hid, o, ho⟩ := hres input (by simp)
    have hlen : (GoMap.get zeroTransaction prevTXs input.Txid).TXID.length ≠ 0 := by
      simpa using hid
    simp only [verifyLoop, hlen, if_false, ho]
    split
    · exact ⟨false, rfl⟩
    · exact ih _ _ (fun inp hinp => hres inp (by simp [hinp]))

/-- C19, amended.  When every input's `Txid` resolves in `prevTXs` to a transaction
with non-empty `TXID` and its `Index` is within the outputs of that transaction,
`Verify` returns `true` or `false`, whatever the signature and public-key bytes. -/
theorem C19_verify_returns_when_indices_in_range (P : Prims) (tx : Transaction)
    (prevTXs : GoMap Transaction)
    (hres : ∀ inp ∈ tx.TXInputs, (GoMap.get zeroTransaction prevTXs inp.Txid).TXID ≠ [] ∧
      ∃ o, (GoMap.get zeroTransaction prevTXs inp.Txid).outputAt inp.Index = some o) :
    ∃ b, tx.Verify P prevTXs = some b := by
  unfold Transaction.Verify
  split
  · exact ⟨true, rfl⟩
  · exact verifyLoop_returns P prevTXs tx.TXInputs 0 tx.TrimmedCopy hres

/-- Witness for C19: output 0 of `[7]`, empty signature and public key. -/
theorem C19_verify_returns_when_indices_in_range_witness :
    ∃ b, (indexTx 0).Verify toyPrims [([7], fundingTx [7] [5, 5])] = some b :=
  C19_verify_returns_when_indices_in_range toyPrims (indexTx 0) [([7], fundingTx [7] [5, 5])]
    (by simp [indexTx, GoMap.get, fundingTx, Transaction.outputAt])

/-! ### `Sign` -/

/-- C20.  When `Sign` completes, the transaction it leaves has the same `TXID`, the
same outputs and as many inputs as before, and every input keeps its `Txid`, `Index`
and `PubKey`; on a coinbase it leaves the transaction as it was. -/
theorem C20_sign_changes_only_signatures (P : Prims) (tx tx' : Transaction) (priv : Nat)
    (prevTXs : GoMap Transaction) (rand : Nat → Nat)
    (h : tx.Sign P priv prevTXs rand = some tx') :
    tx'.TXID = tx.TXID ∧ tx'.TXOutputs = tx.TXOutputs ∧
    tx'.TXInputs.length = tx.TXInputs.length ∧
    (∀ (i : Nat) (inp inp' : TXInput), tx.TXInputs[i]? = some inp → tx'.TXInputs[i]? = some inp' →
      inp'.Txid = inp.Txid ∧ inp'.Index = inp.Index ∧ inp'.PubKey = inp.PubKey) ∧
    (tx.IsCoinbase = true → tx' = tx) := by
  obtain ⟨h1, h2, h3⟩ := sign_frame P tx tx' priv prevTXs rand h
  refine ⟨h1, h2, ?_, ?_, ?_⟩
  · simpa using congrArg List.length h3
  · intro i inp inp' hi hi'
    have hget := congrArg (fun l => l[i]?) h3
    simp only [List.getElem?_map, hi, hi', Option.map_some', Option.some.injEq] at hget
    simp only [TXInput.core, Prod.mk.injEq] at hget
    exact hget
  · intro hcb
    simp [Transaction.Sign, hcb] at h
    exact h.symm

/-- Witness for C20: the one-input transfer signed with the toy scheme. -/
theorem C20_sign_changes_only_signatures_witness :
    (spendTx [5, 5] [1, 77] [5, 5]).TXID = (spendTx [5, 5] [] [5, 5]).TXID ∧
    (spendTx [5, 5] [1, 77] [5, 5]).TXOutputs = (spendTx [5, 5] [] [5, 5]).TXOutputs ∧
    (spendTx [5, 5] [1, 77] [5, 5]).TXInputs.length = (spendTx [5, 5] [] [5, 5]).TXInputs.length ∧
    (∀ (i : Nat) (inp inp' : TXInput), (spendTx [5, 5] [] [5, 5]).TXInputs[i]? = some inp →
      (spendTx [5, 5] [1, 77] [5, 5]).TXInputs[i]? = some inp' →
      inp'.Txid = inp.Txid ∧ inp'.Index = inp.Index ∧ inp'.PubKey = inp.PubKey) ∧
    ((spendTx [5, 5] [] [5, 5]).IsCoinbase = true →
      spendTx [5, 5] [1, 77] [5, 5] = spendTx [5, 5] [] [5, 5]) :=
  C20_sign_changes_only_signatures toyPrims (spendTx [5, 5] [] [5, 5])
    (spendTx [5, 5] [1, 77] [5, 5]) 5 [([7], fundingTx [7] [5, 5])] (fun _ => 0)
    (by
      norm_num [Transaction.Sign, signLoop, spendTx, Transaction.IsCoinbase, GoMap.get, fundingTx,
        Transaction.outputAt, Transaction.TrimmedCopy, Transaction.setInputPubKey,
        Transaction.SetHash, Transaction.setInputSignature, toyPrims, toySign, listTransaction,
        listInput, listOutput, listBytes, encodeSignature, natToBytes])

end GoBitcoin

